import Mathlib

/-!
Verification of the keylight_exporter handler (handler.go) against its
specification.

Go strings are byte strings, so we embed them as lists of natural numbers,
each element standing for one byte (values below 256 on all inputs the
program can see).  ASCII literals are injected with asciiStr, whose
characters are all below 128 so that codepoints and UTF-8 bytes coincide.

The handler depends on a small slice of the Go 1.14 standard library
(net/url, net, strings, fmt); those functions are embedded here
byte-for-byte from the Go 1.14 sources so that buildAddr, buildHostPort,
scrapeDevice and ServeHTTP can be translated literally.
-/

/-- A Go string: a list of byte values. -/
abbrev GoStr : Type := List Nat

deriving instance DecidableEq for Except

/-- Injection of an ASCII Lean string literal into a byte string.  Every
literal used in this development is pure ASCII, for which Unicode
codepoints and UTF-8 bytes agree. -/
def asciiStr (s : String) : GoStr := s.data.map Char.toNat

/-- All bytes of a Go string are genuine byte values. -/
def ByteOk (s : GoStr) : Prop := ∀ b ∈ s, b < 256

instance : DecidablePred ByteOk := fun s =>
  inferInstanceAs (Decidable (∀ b ∈ s, b < 256))

/-- Membership test for one byte, as strings.IndexByte(s, c) >= 0. -/
def containsByte (s : GoStr) (c : Nat) : Bool := s.contains c

/-- Go strings.HasPrefix. -/
def goHasPrefix (s pre : GoStr) : Bool := List.isPrefixOf pre s

/-- Go strings.Contains: some suffix of s starts with sub. -/
def goContains (s sub : GoStr) : Bool :=
  match s with
  | [] => List.isPrefixOf sub []
  | _ :: t => List.isPrefixOf sub s || goContains t sub

/-- Go strings.HasSuffix for a single-byte suffix. -/
def hasSuffixByte (s : GoStr) (c : Nat) : Bool := s.getLast? = some c

/-- Split at the first occurrence of byte c, dropping c (split(s, sep, true)
in net/url).  When c does not occur the whole string is the first part. -/
def splitByteCut (c : Nat) : GoStr → GoStr × GoStr
  | [] => ([], [])
  | b :: rest =>
    if b = c then ([], rest)
    else
      let p := splitByteCut c rest
      (b :: p.1, p.2)

/-- Split at the first occurrence of byte c, keeping c in the second part
(split(s, sep, false) in net/url). -/
def splitByteNoCut (c : Nat) : GoStr → GoStr × GoStr
  | [] => ([], [])
  | b :: rest =>
    if b = c then ([], b :: rest)
    else
      let p := splitByteNoCut c rest
      (b :: p.1, p.2)

/-- Split at the last occurrence of byte c: some (pre, post) with
s = pre ++ c :: post and c not in post; none when c does not occur.
This is the strings.LastIndex(s, c) slicing used by net.SplitHostPort
and url.parseHost. -/
def splitLastByte (c : Nat) : GoStr → Option (GoStr × GoStr)
  | [] => none
  | b :: rest =>
    match splitLastByte c rest with
    | some p => some (b :: p.1, p.2)
    | none => if b = c then some ([], rest) else none

/-- Split at the first occurrence of byte c: some (pre, post) with
s = pre ++ c :: post and c not in pre. -/
def splitFirstByte (c : Nat) : GoStr → Option (GoStr × GoStr)
  | [] => none
  | b :: rest =>
    if b = c then some ([], rest)
    else (splitFirstByte c rest).map fun p => (b :: p.1, p.2)

/-- Index of the first occurrence of byte c (strings.Index / IndexByte). -/
def idxOfByte (c : Nat) : GoStr → Option Nat
  | [] => none
  | b :: rest =>
    if b = c then some 0 else (idxOfByte c rest).map (· + 1)

/-- Split at the first occurrence of the three-byte sequence "%25":
some (pre, post) with s = pre ++ [37, 50, 53] ++ post and no earlier
occurrence.  This is the strings.Index(s, "%25") slicing in parseHost. -/
def splitFirstSub25 : GoStr → Option (GoStr × GoStr)
  | [] => none
  | b :: rest =>
    if b = 37 ∧ rest.take 2 = [50, 53] then some ([], rest.drop 2)
    else (splitFirstSub25 rest).map fun p => (b :: p.1, p.2)

/-- Go strings.ToLower restricted to ASCII, which is exact for URL schemes
(getscheme only lets ASCII letters, digits, and plus, minus, dot through). -/
def toLowerAscii (s : GoStr) : GoStr :=
  s.map fun c => if 65 ≤ c ∧ c ≤ 90 then c + 32 else c

/-- Byte is an ASCII control character (url.stringContainsCTLByte test). -/
def isCTL (b : Nat) : Bool := b < 32 ∨ b = 127

/-- Go url.stringContainsCTLByte. -/
def containsCTLByte (s : GoStr) : Bool := s.any isCTL

/-- Go ishex. -/
def ishex (c : Nat) : Bool :=
  (48 ≤ c ∧ c ≤ 57) ∨ (97 ≤ c ∧ c ≤ 102) ∨ (65 ≤ c ∧ c ≤ 70)

/-- Go unhex. -/
def unhex (c : Nat) : Nat :=
  if 48 ≤ c ∧ c ≤ 57 then c - 48
  else if 97 ≤ c ∧ c ≤ 102 then c - 97 + 10
  else if 65 ≤ c ∧ c ≤ 70 then c - 65 + 10
  else 0

/-- Upper-case hex digit of a value below 16 ("0123456789ABCDEF"). -/
def upperhex (n : Nat) : Nat := if n < 10 then 48 + n else 55 + n

/-- Lower-case hex digit of a value below 16 ("0123456789abcdef"). -/
def lowerhex (n : Nat) : Nat := if n < 10 then 48 + n else 87 + n

/-- Byte-level model of strconv.Quote as used by the %q verb: printable
ASCII is kept, quote and backslash get a backslash escape, the named
control escapes and hex escapes follow strconv.  Bytes at and above 128
are passed through, which matches strconv.Quote exactly when they form
printable non-ASCII runes; every input this development inspects under
quoting is pure ASCII, where the model is exact. -/
def goQuoteByte (b : Nat) : GoStr :=
  if b = 34 then [92, 34]
  else if b = 92 then [92, 92]
  else if 32 ≤ b ∧ b ≤ 126 then [b]
  else if b = 7 then [92, 97]
  else if b = 8 then [92, 98]
  else if b = 12 then [92, 102]
  else if b = 10 then [92, 110]
  else if b = 13 then [92, 114]
  else if b = 9 then [92, 116]
  else if b = 11 then [92, 118]
  else if b < 32 ∨ b = 127 then [92, 120, lowerhex ((b / 16) % 16), lowerhex (b % 16)]
  else [b]

/-- Byte-level model of strconv.Quote (the fmt %q verb on strings). -/
def goQuote (s : GoStr) : GoStr := [34] ++ s.flatMap goQuoteByte ++ [34]

/-- Encoding contexts of net/url (Go 1.14).  encodeQueryComponent and
encodePathSegment are never reached from this program and are omitted. -/
inductive Mode
  | host
  | zone
  | path
  | userPassword
  | fragment
deriving DecidableEq

/-- Go 1.14 url.shouldEscape, byte for byte. -/
def shouldEscape (c : Nat) (mode : Mode) : Bool :=
  if (97 ≤ c ∧ c ≤ 122) ∨ (65 ≤ c ∧ c ≤ 90) ∨ (48 ≤ c ∧ c ≤ 57) then false
  else if (mode = .host ∨ mode = .zone) ∧
      c ∈ ([33, 36, 38, 39, 40, 41, 42, 43, 44, 59, 61, 58, 91, 93, 60, 62, 34] : List Nat) then
    false
  else if c ∈ ([45, 95, 46, 126] : List Nat) then false
  else if c ∈ ([36, 38, 43, 44, 47, 58, 59, 61, 63, 64] : List Nat) then
    match mode with
    | .path => c = 63
    | .userPassword => c = 64 ∨ c = 47 ∨ c = 63 ∨ c = 58
    | .fragment => false
    | .host => true
    | .zone => true
  else true

/-- Escape one byte as url.escape does (the space-to-plus rule applies only
to encodeQueryComponent, which this program never uses). -/
def escapeByte (mode : Mode) (b : Nat) : GoStr :=
  if shouldEscape b mode then [37, upperhex ((b / 16) % 16), upperhex (b % 16)]
  else [b]

/-- Go url.escape. -/
def goEscape (mode : Mode) (s : GoStr) : GoStr := s.flatMap (escapeByte mode)

/-- Error text of url.EscapeError. -/
def escapeErrMsg (s : GoStr) : GoStr := asciiStr "invalid URL escape " ++ goQuote s

/-- Error text of url.InvalidHostError. -/
def invalidHostErrMsg (s : GoStr) : GoStr :=
  asciiStr "invalid character " ++ goQuote s ++ asciiStr " in host name"

/-- Go 1.14 url.unescape restricted to the modes this program reaches.
The Go code first validates and then decodes in a second loop; one
recursive pass that either fails with the first error or produces the
decoded bytes computes the same function.  A percent sign followed by
fewer than two bytes is the truncated EscapeError of the Go code.  The
plus branch of the Go switch writes a plus byte unchanged outside
encodeQueryComponent and is covered by the default branch here, since
shouldEscape allows plus for every mode below. -/
def unescape (mode : Mode) : GoStr → Except GoStr GoStr
  | [] => .ok []
  | [c] =>
    if c = 37 then .error (escapeErrMsg [37])
    else if (mode = .host ∨ mode = .zone) ∧ c < 128 ∧ shouldEscape c mode then
      .error (invalidHostErrMsg [c])
    else (unescape mode []).map (c :: ·)
  | [c, x] =>
    if c = 37 then .error (escapeErrMsg [37, x])
    else if (mode = .host ∨ mode = .zone) ∧ c < 128 ∧ shouldEscape c mode then
      .error (invalidHostErrMsg [c])
    else (unescape mode [x]).map (c :: ·)
  | c :: x :: y :: rest =>
    if c = 37 then
      if ishex x ∧ ishex y then
        if mode = .host ∧ unhex x < 8 ∧ ¬(x = 50 ∧ y = 53) then
          .error (escapeErrMsg [37, x, y])
        else if mode = .zone ∧ ¬(x = 50 ∧ y = 53) ∧ unhex x * 16 + unhex y ≠ 32 ∧
            shouldEscape (unhex x * 16 + unhex y) .host then
          .error (escapeErrMsg [37, x, y])
        else (unescape mode rest).map ((unhex x * 16 + unhex y) :: ·)
      else .error (escapeErrMsg [37, x, y])
    else if (mode = .host ∨ mode = .zone) ∧ c < 128 ∧ shouldEscape c mode then
      .error (invalidHostErrMsg [c])
    else (unescape mode (x :: y :: rest)).map (c :: ·)

/-- Go url.validOptionalPort. -/
def validOptionalPort : GoStr → Bool
  | [] => true
  | 58 :: rest => rest.all fun b => 48 ≤ b ∧ b ≤ 57
  | _ => false

/-- Go url.validEncoded. -/
def validEncoded (s : GoStr) (mode : Mode) : Bool :=
  s.all fun c =>
    if ([33, 36, 38, 39, 40, 41, 42, 43, 44, 59, 61, 58, 64, 91, 93, 37] : List Nat).contains c
    then true
    else ¬shouldEscape c mode

/-- Go url.validUserinfo: iterates over runes, but every rune at or above
128 is rejected, so the byte-level check decides identically. -/
def validUserinfo (s : GoStr) : Bool :=
  s.all fun c =>
    (65 ≤ c ∧ c ≤ 90) ∨ (97 ≤ c ∧ c ≤ 122) ∨ (48 ≤ c ∧ c ≤ 57) ∨
    ([45, 46, 95, 58, 126, 33, 36, 38, 39, 40, 41, 42, 43, 44, 59, 61, 37, 64] : List Nat).contains c

/-- Go url.Userinfo (username, password, passwordSet). -/
structure UserInfo where
  username : GoStr
  password : GoStr
  passwordSet : Bool
deriving DecidableEq

/-- Go 1.14 url.URL restricted to the fields net/url itself reads or
writes on the Parse and String paths (Go 1.14 has no RawFragment). -/
structure URL where
  Scheme : GoStr := []
  Opaque : GoStr := []
  User : Option UserInfo := none
  Host : GoStr := []
  Path : GoStr := []
  RawPath : GoStr := []
  ForceQuery : Bool := false
  RawQuery : GoStr := []
  Fragment : GoStr := []
deriving DecidableEq

/-- Go url.Userinfo.String. -/
def userinfoString (ui : UserInfo) : GoStr :=
  goEscape .userPassword ui.username ++
  (if ui.passwordSet then 58 :: goEscape .userPassword ui.password else [])

/-- Go url.URL.EscapedPath (Go 1.14). -/
def escapedPath (u : URL) : GoStr :=
  if u.RawPath ≠ [] ∧ validEncoded u.RawPath .path ∧ unescape .path u.RawPath = .ok u.Path
  then u.RawPath
  else if u.Path = [42] then [42]
  else goEscape .path u.Path

/-- Go 1.14 url.URL.String, written as the concatenation the Builder
produces.  The dot-slash guard fires only when everything written so far
is empty, exactly the buf.Len() == 0 test. -/
def urlString (u : URL) : GoStr :=
  let schemePart : GoStr := if u.Scheme ≠ [] then u.Scheme ++ [58] else []
  let mainPart : GoStr :=
    if u.Opaque ≠ [] then u.Opaque
    else
      let auth : GoStr :=
        if u.Scheme ≠ [] ∨ u.Host ≠ [] ∨ u.User.isSome then
          (if u.Host ≠ [] ∨ u.Path ≠ [] ∨ u.User.isSome then [47, 47] else []) ++
          (match u.User with
           | some ui => userinfoString ui ++ [64]
           | none => []) ++
          (if u.Host ≠ [] then goEscape .host u.Host else [])
        else []
      let p := escapedPath u
      let slashFix : GoStr := if p ≠ [] ∧ p.head? ≠ some 47 ∧ u.Host ≠ [] then [47] else []
      let dotFix : GoStr :=
        if schemePart ++ auth ++ slashFix = ([] : GoStr) then
          match idxOfByte 58 p with
          | some i => if idxOfByte 47 (p.take i) = none then [46, 47] else []
          | none => []
        else []
      auth ++ slashFix ++ dotFix ++ p
  let queryPart : GoStr := if u.ForceQuery ∨ u.RawQuery ≠ [] then 63 :: u.RawQuery else []
  let fragPart : GoStr := if u.Fragment ≠ [] then 35 :: goEscape .fragment u.Fragment else []
  schemePart ++ mainPart ++ queryPart ++ fragPart

/-- Go url.getscheme, as a scan with the consumed prefix in acc; the
original string is carried along for the no-scheme returns. -/
def getschemeAux (orig acc : GoStr) : GoStr → Except GoStr (GoStr × GoStr)
  | [] => .ok ([], orig)
  | c :: rest =>
    if (97 ≤ c ∧ c ≤ 122) ∨ (65 ≤ c ∧ c ≤ 90) then getschemeAux orig (acc ++ [c]) rest
    else if (48 ≤ c ∧ c ≤ 57) ∨ c = 43 ∨ c = 45 ∨ c = 46 then
      if acc = ([] : GoStr) then .ok ([], orig) else getschemeAux orig (acc ++ [c]) rest
    else if c = 58 then
      if acc = ([] : GoStr) then .error (asciiStr "missing protocol scheme")
      else .ok (acc, rest)
    else .ok ([], orig)

/-- Go url.getscheme: scheme and remainder, or an error. -/
def getscheme (rawurl : GoStr) : Except GoStr (GoStr × GoStr) :=
  getschemeAux rawurl [] rawurl

/-- Error text of fmt.Errorf("invalid port %q after host", colonPort). -/
def invalidPortMsg (colonPort : GoStr) : GoStr :=
  asciiStr "invalid port " ++ goQuote colonPort ++ asciiStr " after host"

/-- Go 1.14 url.parseHost.  The strings.LastIndex slicings become
splitLastByte; host[:i], host[zone:i] and host[i:] for the RFC 6874 zone
become the corresponding piece decompositions. -/
def parseHost (host : GoStr) : Except GoStr GoStr :=
  if host.head? = some 91 then
    match splitLastByte 93 host with
    | none => .error (asciiStr "missing ']' in host")
    | some (pre, post) =>
      if ¬validOptionalPort post then .error (invalidPortMsg post)
      else
        match splitFirstSub25 pre with
        | some (a, b) =>
          match unescape .host a with
          | .error e => .error e
          | .ok h1 =>
            match unescape .zone ([37, 50, 53] ++ b) with
            | .error e => .error e
            | .ok h2 =>
              match unescape .host (93 :: post) with
              | .error e => .error e
              | .ok h3 => .ok (h1 ++ h2 ++ h3)
        | none => unescape .host host
  else
    match splitLastByte 58 host with
    | some (_, post) =>
      if ¬validOptionalPort (58 :: post) then .error (invalidPortMsg (58 :: post))
      else unescape .host host
    | none => unescape .host host

/-- Go url.parseAuthority.  The strings.LastIndex(authority, "@") slicing
becomes splitLastByte 64. -/
def parseAuthority (authority : GoStr) : Except GoStr (Option UserInfo × GoStr) :=
  match splitLastByte 64 authority with
  | none => (parseHost authority).map (fun h => (none, h))
  | some (userinfo, hostpart) =>
    match parseHost hostpart with
    | .error e => .error e
    | .ok host =>
      if ¬validUserinfo userinfo then .error (asciiStr "net/url: invalid userinfo")
      else if ¬containsByte userinfo 58 then
        match unescape .userPassword userinfo with
        | .error e => .error e
        | .ok un => .ok (some ⟨un, [], false⟩, host)
      else
        match splitByteCut 58 userinfo with
        | (usern, pass) =>
          match unescape .userPassword usern with
          | .error e => .error e
          | .ok un =>
            match unescape .userPassword pass with
            | .error e => .error e
            | .ok pw => .ok (some ⟨un, pw, true⟩, host)

/-- Go url.URL.setPath applied to a fresh field pair. -/
def setPath (p : GoStr) : Except GoStr (GoStr × GoStr) :=
  match unescape .path p with
  | .error e => .error e
  | .ok path => .ok (path, if goEscape .path path = p then [] else p)

/-- Go 1.14 url.parse with viaRequest = false (the only call this program
makes): CTL check, star case, scheme split, query split, opaque return,
relative-path colon check, authority parse, path set. -/
def urlParseCore (rawurl : GoStr) : Except GoStr URL :=
  if containsCTLByte rawurl then .error (asciiStr "net/url: invalid control character in URL")
  else if rawurl = ([42] : GoStr) then .ok { Path := [42] }
  else
    match getscheme rawurl with
    | .error e => .error e
    | .ok (scheme0, rest0) =>
      let scheme := toLowerAscii scheme0
      let qtriple : GoStr × Bool × GoStr :=
        if hasSuffixByte rest0 63 ∧ ¬containsByte rest0.dropLast 63 then
          (rest0.dropLast, true, [])
        else ((splitByteCut 63 rest0).1, false, (splitByteCut 63 rest0).2)
      let rest1 := qtriple.1
      let fq := qtriple.2.1
      let rq := qtriple.2.2
      if ¬goHasPrefix rest1 [47] ∧ scheme ≠ ([] : GoStr) then
        .ok { Scheme := scheme, Opaque := rest1, ForceQuery := fq, RawQuery := rq }
      else if ¬goHasPrefix rest1 [47] ∧ scheme = ([] : GoStr) ∧
          (match idxOfByte 58 rest1, idxOfByte 47 rest1 with
           | some colon, some slash => decide (colon < slash)
           | some _, none => true
           | none, _ => false) = true then
        .error (asciiStr "first path segment in URL cannot contain colon")
      else
        if (scheme ≠ ([] : GoStr) ∨ ¬goHasPrefix rest1 [47, 47, 47]) ∧ goHasPrefix rest1 [47, 47] then
          match splitByteNoCut 47 (rest1.drop 2) with
          | (authority, rest2) =>
            match parseAuthority authority with
            | .error e => .error e
            | .ok (user, host) =>
              match setPath rest2 with
              | .error e => .error e
              | .ok (path, rawPath) =>
                .ok { Scheme := scheme, User := user, Host := host, Path := path,
                      RawPath := rawPath, ForceQuery := fq, RawQuery := rq }
        else
          match setPath rest1 with
          | .error e => .error e
          | .ok (path, rawPath) =>
            .ok { Scheme := scheme, Path := path, RawPath := rawPath,
                  ForceQuery := fq, RawQuery := rq }

/-- Error text of url.Error{"parse", raw, err}. -/
def urlErrWrap (raw e : GoStr) : GoStr := asciiStr "parse " ++ goQuote raw ++ asciiStr ": " ++ e

/-- Go 1.14 url.Parse: cut the fragment, parse the rest, then unescape the
fragment; errors are wrapped in url.Error (with the pre-fragment string
for parse errors and the full string for fragment errors). -/
def urlParse (rawurl : GoStr) : Except GoStr URL :=
  match splitByteCut 35 rawurl with
  | (u, frag) =>
    match urlParseCore u with
    | .error e => .error (urlErrWrap u e)
    | .ok url =>
      if frag = ([] : GoStr) then .ok url
      else
        match unescape .fragment frag with
        | .error e => .error (urlErrWrap rawurl e)
        | .ok f => .ok { url with Fragment := f }

/-- Error text of net.AddrError{Err: why, Addr: addr}. -/
def addrErrMsg (addr why : GoStr) : GoStr :=
  if addr ≠ ([] : GoStr) then asciiStr "address " ++ addr ++ asciiStr ": " ++ why else why

/-- Go net.SplitHostPort.  The last-colon index i of the Go code is the
length of the first component of splitLastByte 58; hostport[:i] and
hostport[i+1:] are its two components. -/
def splitHostPort (hostport : GoStr) : Except GoStr (GoStr × GoStr) :=
  match splitLastByte 58 hostport with
  | none => .error (addrErrMsg hostport (asciiStr "missing port in address"))
  | some (hostPre, port) =>
    if hostport.head? = some 91 then
      match idxOfByte 93 hostport with
      | none => .error (addrErrMsg hostport (asciiStr "missing ']' in address"))
      | some endi =>
        if endi + 1 = hostport.length then
          .error (addrErrMsg hostport (asciiStr "missing port in address"))
        else if endi + 1 = hostPre.length then
          if containsByte (hostport.drop 1) 91 then
            .error (addrErrMsg hostport (asciiStr "unexpected '[' in address"))
          else if containsByte (hostport.drop (endi + 1)) 93 then
            .error (addrErrMsg hostport (asciiStr "unexpected ']' in address"))
          else .ok ((hostport.drop 1).take (endi - 1), port)
        else if hostport.get? (endi + 1) = some 58 then
          .error (addrErrMsg hostport (asciiStr "too many colons in address"))
        else .error (addrErrMsg hostport (asciiStr "missing port in address"))
    else
      if containsByte hostPre 58 then
        .error (addrErrMsg hostport (asciiStr "too many colons in address"))
      else if containsByte hostport 91 then
        .error (addrErrMsg hostport (asciiStr "unexpected '[' in address"))
      else if containsByte hostport 93 then
        .error (addrErrMsg hostport (asciiStr "unexpected ']' in address"))
      else .ok (hostPre, port)

/-- Go net.JoinHostPort. -/
def joinHostPort (host port : GoStr) : GoStr :=
  if containsByte host 58 then 91 :: host ++ 93 :: 58 :: port
  else host ++ 58 :: port

/-- Default HTTP port of Key Light devices (handler.go keylightPort). -/
def keylightPort : GoStr := asciiStr "9123"

/-- The scheme separator buildAddr looks for. -/
def schemeSep : GoStr := asciiStr "://"

/-- The scheme-present branch of buildAddr (handler.go lines 179 to 194):
parse the URL, trim a bare trailing slash, and accept only HTTP or HTTPS
with a non-empty host and empty path, rendering via URL.String. -/
def buildAddrScheme (s : GoStr) : Except GoStr GoStr :=
  match urlParse s with
  | .error e => .error e
  | .ok u0 =>
    let u := if u0.Path = ([47] : GoStr) then { u0 with Path := ([] : GoStr) } else u0
    if (u.Scheme ≠ asciiStr "http" ∧ u.Scheme ≠ asciiStr "https") ∨
        u.Host = ([] : GoStr) ∨ u.Path ≠ ([] : GoStr) then
      .error (asciiStr "invalid device URL: " ++ goQuote (urlString u))
    else .ok (urlString u)

/-- Go handler.go buildHostPort: split host and port (falling back to the
whole string plus the default port), rebuild an HTTP URL string, and
re-validate it.  The source calls buildAddr on the rebuilt string; that
string always contains the scheme separator (theorem
buildHostPort_recon_has_sep below), so the call is exactly
buildAddrScheme. -/
def buildHostPort (s : GoStr) : Except GoStr GoStr :=
  let hp : GoStr × GoStr :=
    match splitHostPort s with
    | .ok hp => hp
    | .error _ => (s, keylightPort)
  buildAddrScheme (urlString { Scheme := asciiStr "http", Host := joinHostPort hp.1 hp.2 })

/-- Go handler.go buildAddr. -/
def buildAddr (s : GoStr) : Except GoStr GoStr :=
  if goContains s schemeSep then buildAddrScheme s else buildHostPort s

/-- Device metadata of a keylight.Device as the handler reads it. -/
structure Device where
  DisplayName : GoStr
  FirmwareVersion : GoStr
  SerialNumber : GoStr
deriving DecidableEq

/-- State of one keylight.Light as the handler reads it.  Brightness and
Temperature are Go ints; the handler converts them with float64(_), which
is value-preserving at every magnitude the devices produce, so gauge
values are modelled as integers. -/
structure Light where
  On : Bool
  Brightness : Int
  Temperature : Int
deriving DecidableEq

/-- Go handler.go Data. -/
structure Data where
  Device : Device
  Lights : List Light
deriving DecidableEq

/-- One gauge observation: metric name, numeric value, label values in
declaration order. -/
structure Obs where
  name : GoStr
  value : Int
  labels : List GoStr
deriving DecidableEq

/-- Prometheus metric names of handler.go. -/
def klInfo : GoStr := asciiStr "keylight_info"

/-- Per-light on/off gauge name. -/
def klLightOn : GoStr := asciiStr "keylight_light_on"

/-- Per-light brightness gauge name. -/
def klLightBrightnessPercent : GoStr := asciiStr "keylight_light_brightness_percent"

/-- Per-light color temperature gauge name. -/
def klLightTemperatureKelvin : GoStr := asciiStr "keylight_light_temperature_kelvin"

/-- The four gauge names registered by NewHandler, in registration order;
these are exactly the keys of the metrics map OnConstScrape passes to the
scrape function. -/
def declaredNames : List GoStr :=
  [klInfo, klLightOn, klLightBrightnessPercent, klLightTemperatureKelvin]

/-- Go handler.go boolFloat (float64 0.0 or 1.0, modelled integrally). -/
def boolFloat (b : Bool) : Int := if b then 1 else 0

/-- Decimal byte string of a natural number, as fmt.Sprintf residue. -/
def natDecimal (n : Nat) : GoStr := asciiStr (toString n)

/-- The synthetic light label fmt.Sprintf("light%d", i). -/
def lightLabel (i : Nat) : GoStr := asciiStr "light" ++ natDecimal i

/-- Message of panicf("keylight_exporter: unhandled light metric %q", name). -/
def unhandledLightMetricMsg (name : GoStr) : GoStr :=
  asciiStr "keylight_exporter: unhandled light metric " ++ goQuote name

/-- Message of panicf("keylight_exporter: unhandled metric %q", name). -/
def unhandledMetricMsg (name : GoStr) : GoStr :=
  asciiStr "keylight_exporter: unhandled metric " ++ goQuote name

/-- The inner switch of scrapeDevice for one light: emit the observation
for the given per-light gauge name, or panic (modelled as Except.error)
on an unhandled name. -/
def scrapeLight (name serial : GoStr) (i : Nat) (l : Light) : Except GoStr Obs :=
  if name = klLightOn then .ok ⟨name, boolFloat l.On, [lightLabel i, serial]⟩
  else if name = klLightBrightnessPercent then .ok ⟨name, l.Brightness, [lightLabel i, serial]⟩
  else if name = klLightTemperatureKelvin then .ok ⟨name, l.Temperature, [lightLabel i, serial]⟩
  else .error (unhandledLightMetricMsg name)

/-- The for i, l := range d.Lights loop of scrapeDevice for one per-light
gauge name, starting at index i. -/
def lightRows (name serial : GoStr) (i : Nat) : List Light → Except GoStr (List Obs)
  | [] => .ok []
  | l :: ls =>
    match scrapeLight name serial i l with
    | .error e => .error e
    | .ok o =>
      match lightRows name serial (i + 1) ls with
      | .error e => .error e
      | .ok rest => .ok (o :: rest)

/-- The outer switch of scrapeDevice for one gauge name of the metrics
map: the device-info row, the per-light rows, or a panic (Except.error)
for an undeclared name. -/
def scrapeName (d : Data) (name : GoStr) : Except GoStr (List Obs) :=
  if name = klInfo then
    .ok [⟨name, 1, [d.Device.FirmwareVersion, d.Device.DisplayName, d.Device.SerialNumber]⟩]
  else if name = klLightOn ∨ name = klLightBrightnessPercent ∨ name = klLightTemperatureKelvin then
    lightRows name d.Device.SerialNumber 0 d.Lights
  else .error (unhandledMetricMsg name)

/-- Go handler.go scrapeDevice: the returned ScrapeFunc ranges over the
metrics map (its keys given as the list names, in the map's iteration
order) and dispatches per name; a panic aborts the pass (Except.error). -/
def scrapeDevice (d : Data) : List GoStr → Except GoStr (List Obs)
  | [] => .ok []
  | name :: names =>
    match scrapeName d name with
    | .error e => .error e
    | .ok rows =>
      match scrapeDevice d names with
      | .error e => .error e
      | .ok rest => .ok (rows ++ rest)

/-- The observations a successful scrape of d produces over the declared
gauge names (scrapeDevice never panics on them, see
scrapeDevice_declared_ok). -/
def scrapeObsOk (d : Data) : List Obs :=
  match scrapeDevice d declaredNames with
  | .ok l => l
  | .error _ => []

/-- An HTTP response of the handler: status code and body. -/
structure Response where
  status : Nat
  body : GoStr
deriving DecidableEq

/-- Go http.Error body: the message plus a trailing newline. -/
def httpErrorBody (msg : GoStr) : GoStr := msg ++ [10]

/-- Go handler.ServeHTTP.  The fetcher and the exposition encoder are the
two injected collaborators; target is r.URL.Query().Get("target"), which
is empty when the parameter is absent.  A top-level Except.error models a
panic escaping the handler, which scrapeDevice_declared_ok shows never
happens. -/
def serveHTTP (fetch : GoStr → Except GoStr Data) (enc : List Obs → GoStr)
    (target : GoStr) : Except GoStr Response :=
  if target = ([] : GoStr) then
    .ok ⟨400, httpErrorBody (asciiStr "missing target parameter")⟩
  else
    match buildAddr target with
    | .error e => .ok ⟨400, httpErrorBody (asciiStr "malformed target parameter: " ++ e)⟩
    | .ok addr =>
      match fetch addr with
      | .error e =>
        .ok ⟨500, httpErrorBody (asciiStr "failed to fetch Key Light data from " ++
          goQuote addr ++ asciiStr ": " ++ e)⟩
      | .ok d =>
        match scrapeDevice d declaredNames with
        | .error e => .error e
        | .ok obs => .ok ⟨200, enc obs⟩

/-- The device of handler_test.go. -/
def testDevice : Device :=
  ⟨asciiStr "test", asciiStr "1.0.0", asciiStr "1111"⟩

/-- The two-light snapshot of handler_test.go. -/
def testData : Data :=
  ⟨testDevice, [⟨true, 20, 4200⟩, ⟨false, 0, 0⟩]⟩

/-- A second device, distinct from the test device, for exercising two
concurrent requests. -/
def otherData : Data :=
  ⟨⟨asciiStr "othr", asciiStr "2.0.0", asciiStr "2222"⟩, [⟨false, 55, 2900⟩]⟩

/-- Device assignment for the two concurrent requests of the witnesses. -/
def devW : Bool → Data := fun t => if t then otherData else testData

/-- Program phases of one handler invocation on the success path of
ServeHTTP (handler.go lines 151 to 169): before the fetch, inside the
blocking Fetch call, after a successful or failed fetch, holding the
mutex after mu.Lock, after OnConstScrape has repopulated the shared
gauges, after metrics.ServeHTTP has written the body, and after the
deferred mu.Unlock. -/
inductive Phase
  | start
  | inFetch
  | fetchedOk
  | fetchFailed
  | locked
  | scraped
  | rendered
  | done
deriving DecidableEq

/-- Global state of two concurrent handler invocations (threads false and
true) sharing one handler value: per-thread phase, the owner of h.mu, the
current gauge values of the shared metricslite registry, and the body
each request has written (as the observation list the encoder serializes). -/
structure Sys where
  pc : Bool → Phase
  owner : Option Bool
  registry : List Obs
  out : Bool → Option (List Obs)

/-- Pointwise update of a per-thread map. -/
def setTh {α : Type} (f : Bool → α) (t : Bool) (v : α) : Bool → α :=
  fun b => if b = t then v else f b

/-- Interleaving semantics of two concurrent ServeHTTP invocations, with
dev giving the device each thread's fetcher returns.  Steps follow the
statement order of handler.go: Fetch runs before mu.Lock; mu.Lock blocks
until no thread owns the mutex; OnConstScrape overwrites the shared
registry; metrics.ServeHTTP reads it back and writes the body; the
deferred mu.Unlock runs last. -/
inductive Step (dev : Bool → Data) : Sys → Sys → Prop
  | fetchStart (s : Sys) (t : Bool) :
      s.pc t = .start →
      Step dev s { s with pc := setTh s.pc t .inFetch }
  | fetchOk (s : Sys) (t : Bool) :
      s.pc t = .inFetch →
      Step dev s { s with pc := setTh s.pc t .fetchedOk }
  | fetchFail (s : Sys) (t : Bool) :
      s.pc t = .inFetch →
      Step dev s { s with pc := setTh s.pc t .fetchFailed }
  | lock (s : Sys) (t : Bool) :
      s.pc t = .fetchedOk → s.owner = none →
      Step dev s { s with pc := setTh s.pc t .locked, owner := some t }
  | scrape (s : Sys) (t : Bool) :
      s.pc t = .locked → s.owner = some t →
      Step dev s { s with pc := setTh s.pc t .scraped, registry := scrapeObsOk (dev t) }
  | render (s : Sys) (t : Bool) :
      s.pc t = .scraped → s.owner = some t →
      Step dev s { s with pc := setTh s.pc t .rendered, out := setTh s.out t (some s.registry) }
  | unlock (s : Sys) (t : Bool) :
      s.pc t = .rendered → s.owner = some t →
      Step dev s { s with pc := setTh s.pc t .done, owner := none }

/-- Initial state: both requests at the top of ServeHTTP, mutex free,
nothing rendered. -/
def sysInit : Sys := ⟨fun _ => .start, none, [], fun _ => none⟩

/-- States reachable by interleaving the two invocations. -/
inductive Reachable (dev : Bool → Data) : Sys → Prop
  | init : Reachable dev sysInit
  | step {s s2 : Sys} : Reachable dev s → Step dev s s2 → Reachable dev s2

/-- Extraction of the rows scrapeName produces for one gauge name (empty
on the panic branch, which never fires for declared names). -/
def scrapeRows (d : Data) (n : GoStr) : List Obs :=
  match scrapeName d n with
  | .ok rows => rows
  | .error _ => []

theorem scrapeLight_on (serial : GoStr) (i : Nat) (l : Light) :
    scrapeLight klLightOn serial i l = .ok ⟨klLightOn, boolFloat l.On, [lightLabel i, serial]⟩ := by
  simp [scrapeLight]

theorem scrapeLight_brightness (serial : GoStr) (i : Nat) (l : Light) :
    scrapeLight klLightBrightnessPercent serial i l =
      .ok ⟨klLightBrightnessPercent, l.Brightness, [lightLabel i, serial]⟩ := by
  rw [scrapeLight, if_neg (by decide), if_pos rfl]

theorem scrapeLight_temperature (serial : GoStr) (i : Nat) (l : Light) :
    scrapeLight klLightTemperatureKelvin serial i l =
      .ok ⟨klLightTemperatureKelvin, l.Temperature, [lightLabel i, serial]⟩ := by
  rw [scrapeLight, if_neg (by decide), if_neg (by decide), if_pos rfl]

theorem lightRows_ok (g serial : GoStr) (v : Light → Int)
    (hv : ∀ i l, scrapeLight g serial i l = .ok ⟨g, v l, [lightLabel i, serial]⟩) :
    ∀ (ls : List Light) (i0 : Nat), ∃ rows, lightRows g serial i0 ls = .ok rows ∧
      rows.length = ls.length ∧ ∀ o ∈ rows, o.name = g ∧ o.labels.getLast? = some serial := by
  intro ls
  induction ls with
  | nil => exact fun i0 => ⟨[], rfl, rfl, by simp⟩
  | cons l ls ih =>
    intro i0
    obtain ⟨rest, hr, hlen, hmem⟩ := ih (i0 + 1)
    refine ⟨⟨g, v l, [lightLabel i0, serial]⟩ :: rest, ?_, by simp [hlen], ?_⟩
    · rw [lightRows, hv i0 l, hr]
    · intro o ho
      rcases List.mem_cons.mp ho with h | h
      · subst h; exact ⟨rfl, rfl⟩
      · exact hmem o h

theorem lightRows_get (g serial : GoStr) (v : Light → Int)
    (hv : ∀ i l, scrapeLight g serial i l = .ok ⟨g, v l, [lightLabel i, serial]⟩) :
    ∀ (ls : List Light) (i0 j : Nat) (l0 : Light) (rows : List Obs),
      ls[j]? = some l0 → lightRows g serial i0 ls = .ok rows →
      rows[j]? = some ⟨g, v l0, [lightLabel (i0 + j), serial]⟩ := by
  intro ls
  induction ls with
  | nil => intro i0 j l0 rows hj; simp at hj
  | cons l ls ih =>
    intro i0 j l0 rows hj hrows
    rw [lightRows, hv i0 l] at hrows
    cases hrec : lightRows g serial (i0 + 1) ls with
    | error e => rw [hrec] at hrows; exact absurd hrows (by simp)
    | ok rest =>
      rw [hrec] at hrows
      cases hrows
      cases j with
      | zero =>
        simp only [List.getElem?_cons_zero, Option.some.injEq] at hj
        subst hj
        simp
      | succ j2 =>
        simp only [List.getElem?_cons_succ] at hj
        have := ih (i0 + 1) j2 l0 rest hj hrec
        simpa [Nat.add_assoc, Nat.add_comm 1 j2] using this

theorem scrapeName_info (d : Data) :
    scrapeName d klInfo =
      .ok [⟨klInfo, 1, [d.Device.FirmwareVersion, d.Device.DisplayName, d.Device.SerialNumber]⟩] := by
  simp [scrapeName]

theorem scrapeName_on (d : Data) :
    scrapeName d klLightOn = lightRows klLightOn d.Device.SerialNumber 0 d.Lights := by
  rw [scrapeName, if_neg (by decide), if_pos (by decide)]

theorem scrapeName_brightness (d : Data) :
    scrapeName d klLightBrightnessPercent =
      lightRows klLightBrightnessPercent d.Device.SerialNumber 0 d.Lights := by
  rw [scrapeName, if_neg (by decide), if_pos (by decide)]

theorem scrapeName_temperature (d : Data) :
    scrapeName d klLightTemperatureKelvin =
      lightRows klLightTemperatureKelvin d.Device.SerialNumber 0 d.Lights := by
  rw [scrapeName, if_neg (by decide), if_pos (by decide)]

theorem scrapeName_declared_ok (d : Data) (n : GoStr) (hn : n ∈ declaredNames) :
    scrapeName d n = .ok (scrapeRows d n) := by
  have hex : ∃ rows, scrapeName d n = .ok rows := by
    simp only [declaredNames, List.mem_cons, List.not_mem_nil, or_false] at hn
    rcases hn with h | h | h | h
    · exact ⟨_, h ▸ scrapeName_info d⟩
    · obtain ⟨rows, hr, -, -⟩ :=
        lightRows_ok klLightOn d.Device.SerialNumber (fun l => boolFloat l.On)
          (scrapeLight_on d.Device.SerialNumber) d.Lights 0
      exact ⟨rows, by rw [h, scrapeName_on, hr]⟩
    · obtain ⟨rows, hr, -, -⟩ :=
        lightRows_ok klLightBrightnessPercent d.Device.SerialNumber (fun l => l.Brightness)
          (scrapeLight_brightness d.Device.SerialNumber) d.Lights 0
      exact ⟨rows, by rw [h, scrapeName_brightness, hr]⟩
    · obtain ⟨rows, hr, -, -⟩ :=
        lightRows_ok klLightTemperatureKelvin d.Device.SerialNumber (fun l => l.Temperature)
          (scrapeLight_temperature d.Device.SerialNumber) d.Lights 0
      exact ⟨rows, by rw [h, scrapeName_temperature, hr]⟩
  obtain ⟨rows, hr⟩ := hex
  rw [hr, scrapeRows, hr]

theorem scrapeRows_spec (d : Data) (n : GoStr) (hn : n ∈ declaredNames) :
    ∀ o ∈ scrapeRows d n, o.name = n ∧ o.labels.getLast? = some d.Device.SerialNumber := by
  have hok := scrapeName_declared_ok d n hn
  simp only [declaredNames, List.mem_cons, List.not_mem_nil, or_false] at hn
  rcases hn with h | h | h | h
  · subst h
    rw [scrapeName_info d] at hok
    injection hok with hok
    rw [← hok]
    intro o ho
    simp only [List.mem_singleton] at ho
    subst ho
    exact ⟨rfl, rfl⟩
  · subst h
    obtain ⟨rows, hr, -, hmem⟩ :=
      lightRows_ok klLightOn d.Device.SerialNumber (fun l => boolFloat l.On)
        (scrapeLight_on d.Device.SerialNumber) d.Lights 0
    rw [scrapeName_on, hr] at hok
    injection hok with hok
    rw [← hok]
    exact hmem
  · subst h
    obtain ⟨rows, hr, -, hmem⟩ :=
      lightRows_ok klLightBrightnessPercent d.Device.SerialNumber (fun l => l.Brightness)
        (scrapeLight_brightness d.Device.SerialNumber) d.Lights 0
    rw [scrapeName_brightness, hr] at hok
    injection hok with hok
    rw [← hok]
    exact hmem
  · subst h
    obtain ⟨rows, hr, -, hmem⟩ :=
      lightRows_ok klLightTemperatureKelvin d.Device.SerialNumber (fun l => l.Temperature)
        (scrapeLight_temperature d.Device.SerialNumber) d.Lights 0
    rw [scrapeName_temperature, hr] at hok
    injection hok with hok
    rw [← hok]
    exact hmem

theorem scrapeRows_info_eq (d : Data) :
    scrapeRows d klInfo =
      [⟨klInfo, 1, [d.Device.FirmwareVersion, d.Device.DisplayName, d.Device.SerialNumber]⟩] := by
  rw [scrapeRows, scrapeName_info d]

theorem scrapeRows_per_light_length (d : Data) (n : GoStr)
    (hn : n = klLightOn ∨ n = klLightBrightnessPercent ∨ n = klLightTemperatureKelvin) :
    (scrapeRows d n).length = d.Lights.length := by
  rcases hn with h | h | h
  · subst h
    obtain ⟨rows, hr, hlen, -⟩ :=
      lightRows_ok klLightOn d.Device.SerialNumber (fun l => boolFloat l.On)
        (scrapeLight_on d.Device.SerialNumber) d.Lights 0
    rw [scrapeRows, scrapeName_on, hr, hlen]
  · subst h
    obtain ⟨rows, hr, hlen, -⟩ :=
      lightRows_ok klLightBrightnessPercent d.Device.SerialNumber (fun l => l.Brightness)
        (scrapeLight_brightness d.Device.SerialNumber) d.Lights 0
    rw [scrapeRows, scrapeName_brightness, hr, hlen]
  · subst h
    obtain ⟨rows, hr, hlen, -⟩ :=
      lightRows_ok klLightTemperatureKelvin d.Device.SerialNumber (fun l => l.Temperature)
        (scrapeLight_temperature d.Device.SerialNumber) d.Lights 0
    rw [scrapeRows, scrapeName_temperature, hr, hlen]

theorem scrapeDevice_eq_flatMap (d : Data) :
    ∀ names : List GoStr, (∀ n ∈ names, n ∈ declaredNames) →
      scrapeDevice d names = .ok (names.flatMap (scrapeRows d)) := by
  intro names
  induction names with
  | nil => intro _; rfl
  | cons n ns ih =>
    intro h
    have hok := scrapeName_declared_ok d n (h n (by simp))
    rw [scrapeDevice, hok, ih (fun m hm => h m (by simp [hm]))]
    simp

theorem countP_name_eq (l : List Obs) (n : GoStr) (h : ∀ o ∈ l, o.name = n) (g : GoStr) :
    l.countP (fun o => decide (o.name = g)) = if n = g then l.length else 0 := by
  induction l with
  | nil => simp
  | cons o t ih =>
    have hn := h o (by simp)
    have ht := ih fun x hx => h x (by simp [hx])
    by_cases hg : n = g
    · subst hg
      simp [List.countP_cons, hn, ht]
    · simp [List.countP_cons, hn, ht, hg]

theorem filter_name_nil (l : List Obs) (n : GoStr) (h : ∀ o ∈ l, o.name = n) (g : GoStr)
    (hg : n ≠ g) : l.filter (fun o => decide (o.name = g)) = [] := by
  rw [List.filter_eq_nil_iff]
  intro o ho
  simp [h o ho, hg]


/-- C5: each of the inputs "sftp://foo", "http://", "foo:bar" and
"http://foo/bar" makes the Address Normalizer buildAddr return an error
and never a value; in particular the scheme-less "foo:bar" with its
non-numeric port segment is rejected outright. -/
theorem buildAddr_rejects_malformed :
    (buildAddr (asciiStr "sftp://foo")).toOption = none ∧
    (buildAddr (asciiStr "http://")).toOption = none ∧
    (buildAddr (asciiStr "foo:bar")).toOption = none ∧
    (buildAddr (asciiStr "http://foo/bar")).toOption = none := by decide

/-- C6: buildAddr maps "foo" to "http://foo:9123" (default port applied),
"foo:9123" to "http://foo:9123", strips the bare trailing slash of
"http://foo:9123/", and leaves "http://foo:9123" unchanged. -/
theorem buildAddr_edge_cases :
    buildAddr (asciiStr "foo") = .ok (asciiStr "http://foo:9123") ∧
    buildAddr (asciiStr "foo:9123") = .ok (asciiStr "http://foo:9123") ∧
    buildAddr (asciiStr "http://foo:9123/") = .ok (asciiStr "http://foo:9123") ∧
    buildAddr (asciiStr "http://foo:9123") = .ok (asciiStr "http://foo:9123") := by decide

/-- C3: for every snapshot and every iteration order of the four declared
gauge names, the scrape succeeds and emits exactly one observation per
light for each of the three per-light gauges, and exactly one device-info
observation of value 1 labelled with the firmware version, display name
and serial number. -/
theorem scrape_observation_counts (d : Data) (names : List GoStr)
    (hp : names.Perm declaredNames) :
    ∃ obs, scrapeDevice d names = .ok obs ∧
      obs.countP (fun o => decide (o.name = klLightOn)) = d.Lights.length ∧
      obs.countP (fun o => decide (o.name = klLightBrightnessPercent)) = d.Lights.length ∧
      obs.countP (fun o => decide (o.name = klLightTemperatureKelvin)) = d.Lights.length ∧
      obs.filter (fun o => decide (o.name = klInfo)) =
        [⟨klInfo, 1, [d.Device.FirmwareVersion, d.Device.DisplayName, d.Device.SerialNumber]⟩] := by
  have hsub : ∀ n ∈ names, n ∈ declaredNames := fun n hn => hp.mem_iff.mp hn
  have hinfo1 : ∀ o ∈ scrapeRows d klInfo, o.name = klInfo :=
    fun o ho => (scrapeRows_spec d klInfo (by decide) o ho).1
  have hon1 : ∀ o ∈ scrapeRows d klLightOn, o.name = klLightOn :=
    fun o ho => (scrapeRows_spec d klLightOn (by decide) o ho).1
  have hbr1 : ∀ o ∈ scrapeRows d klLightBrightnessPercent, o.name = klLightBrightnessPercent :=
    fun o ho => (scrapeRows_spec d klLightBrightnessPercent (by decide) o ho).1
  have htw1 : ∀ o ∈ scrapeRows d klLightTemperatureKelvin, o.name = klLightTemperatureKelvin :=
    fun o ho => (scrapeRows_spec d klLightTemperatureKelvin (by decide) o ho).1
  have hperm := hp.flatMap_right (scrapeRows d)
  refine ⟨_, scrapeDevice_eq_flatMap d names hsub, ?_, ?_, ?_, ?_⟩
  · rw [List.Perm.countP_eq _ hperm]
    simp only [declaredNames, List.flatMap_cons, List.flatMap_nil, List.countP_append,
      List.append_nil]
    rw [countP_name_eq _ _ hinfo1, countP_name_eq _ _ hon1, countP_name_eq _ _ hbr1,
      countP_name_eq _ _ htw1, if_neg (by decide : ¬klInfo = klLightOn), if_pos rfl,
      if_neg (by decide : ¬klLightBrightnessPercent = klLightOn),
      if_neg (by decide : ¬klLightTemperatureKelvin = klLightOn),
      scrapeRows_per_light_length d klLightOn (Or.inl rfl)]
    omega
  · rw [List.Perm.countP_eq _ hperm]
    simp only [declaredNames, List.flatMap_cons, List.flatMap_nil, List.countP_append,
      List.append_nil]
    rw [countP_name_eq _ _ hinfo1, countP_name_eq _ _ hon1, countP_name_eq _ _ hbr1,
      countP_name_eq _ _ htw1, if_neg (by decide : ¬klInfo = klLightBrightnessPercent),
      if_neg (by decide : ¬klLightOn = klLightBrightnessPercent), if_pos rfl,
      if_neg (by decide : ¬klLightTemperatureKelvin = klLightBrightnessPercent),
      scrapeRows_per_light_length d klLightBrightnessPercent (Or.inr (Or.inl rfl))]
    omega
  · rw [List.Perm.countP_eq _ hperm]
    simp only [declaredNames, List.flatMap_cons, List.flatMap_nil, List.countP_append,
      List.append_nil]
    rw [countP_name_eq _ _ hinfo1, countP_name_eq _ _ hon1, countP_name_eq _ _ hbr1,
      countP_name_eq _ _ htw1, if_neg (by decide : ¬klInfo = klLightTemperatureKelvin),
      if_neg (by decide : ¬klLightOn = klLightTemperatureKelvin),
      if_neg (by decide : ¬klLightBrightnessPercent = klLightTemperatureKelvin), if_pos rfl,
      scrapeRows_per_light_length d klLightTemperatureKelvin (Or.inr (Or.inr rfl))]
    omega
  · have hpf := hperm.filter (fun o => decide (o.name = klInfo))
    have hdecl : (declaredNames.flatMap (scrapeRows d)).filter
        (fun o => decide (o.name = klInfo)) =
        [⟨klInfo, 1, [d.Device.FirmwareVersion, d.Device.DisplayName, d.Device.SerialNumber]⟩] := by
      simp only [declaredNames, List.flatMap_cons, List.flatMap_nil, List.filter_append,
        List.append_nil]
      rw [filter_name_nil _ _ hon1 _ (by decide), filter_name_nil _ _ hbr1 _ (by decide),
        filter_name_nil _ _ htw1 _ (by decide), scrapeRows_info_eq]
      simp
    rw [hdecl] at hpf
    exact List.perm_singleton.mp hpf

/-- C3 witness: a snapshot with two lights scraped in a shuffled gauge
order yields two observations per per-light gauge and the single info
observation. -/
theorem scrape_observation_counts_witness :
    ∃ obs, scrapeDevice testData
        [klLightOn, klInfo, klLightTemperatureKelvin, klLightBrightnessPercent] = .ok obs ∧
      obs.countP (fun o => decide (o.name = klLightOn)) = testData.Lights.length ∧
      obs.countP (fun o => decide (o.name = klLightBrightnessPercent)) = testData.Lights.length ∧
      obs.countP (fun o => decide (o.name = klLightTemperatureKelvin)) = testData.Lights.length ∧
      obs.filter (fun o => decide (o.name = klInfo)) =
        [⟨klInfo, 1, [testData.Device.FirmwareVersion, testData.Device.DisplayName,
          testData.Device.SerialNumber]⟩] :=
  scrape_observation_counts testData
    [klLightOn, klInfo, klLightTemperatureKelvin, klLightBrightnessPercent] (by decide)

/-- C4: the observation for the light at zero-based position i carries
label light followed by the decimal index, the device serial number as
the serial label, on/off mapped through boolFloat to 1 and 0, and the
brightness and temperature values passed through unchanged. -/
theorem scrape_per_light_content (d : Data) (i : Nat) (h : i < d.Lights.length) :
    (scrapeRows d klLightOn)[i]? =
      some ⟨klLightOn, boolFloat d.Lights[i].On, [lightLabel i, d.Device.SerialNumber]⟩ ∧
    (scrapeRows d klLightBrightnessPercent)[i]? =
      some ⟨klLightBrightnessPercent, d.Lights[i].Brightness,
        [lightLabel i, d.Device.SerialNumber]⟩ ∧
    (scrapeRows d klLightTemperatureKelvin)[i]? =
      some ⟨klLightTemperatureKelvin, d.Lights[i].Temperature,
        [lightLabel i, d.Device.SerialNumber]⟩ ∧
    boolFloat true = 1 ∧ boolFloat false = 0 := by
  have hj : d.Lights[i]? = some d.Lights[i] := List.getElem?_eq_getElem h
  refine ⟨?_, ?_, ?_, rfl, rfl⟩
  · obtain ⟨rows, hr, -, -⟩ :=
      lightRows_ok klLightOn d.Device.SerialNumber (fun l => boolFloat l.On)
        (scrapeLight_on d.Device.SerialNumber) d.Lights 0
    have hg := lightRows_get klLightOn d.Device.SerialNumber (fun l => boolFloat l.On)
      (scrapeLight_on d.Device.SerialNumber) d.Lights 0 i d.Lights[i] rows hj hr
    rw [scrapeRows, scrapeName_on, hr]
    simpa using hg
  · obtain ⟨rows, hr, -, -⟩ :=
      lightRows_ok klLightBrightnessPercent d.Device.SerialNumber (fun l => l.Brightness)
        (scrapeLight_brightness d.Device.SerialNumber) d.Lights 0
    have hg := lightRows_get klLightBrightnessPercent d.Device.SerialNumber (fun l => l.Brightness)
      (scrapeLight_brightness d.Device.SerialNumber) d.Lights 0 i d.Lights[i] rows hj hr
    rw [scrapeRows, scrapeName_brightness, hr]
    simpa using hg
  · obtain ⟨rows, hr, -, -⟩ :=
      lightRows_ok klLightTemperatureKelvin d.Device.SerialNumber (fun l => l.Temperature)
        (scrapeLight_temperature d.Device.SerialNumber) d.Lights 0
    have hg := lightRows_get klLightTemperatureKelvin d.Device.SerialNumber
      (fun l => l.Temperature) (scrapeLight_temperature d.Device.SerialNumber) d.Lights 0 i
      d.Lights[i] rows hj hr
    rw [scrapeRows, scrapeName_temperature, hr]
    simpa using hg

/-- C4 witness: the first light of the test snapshot (on, brightness 20,
temperature 4200) is labelled light0 with serial 1111 and values 1, 20,
4200. -/
theorem scrape_per_light_content_witness :
    (scrapeRows testData klLightOn)[0]? =
      some ⟨klLightOn, boolFloat testData.Lights[0].On,
        [lightLabel 0, testData.Device.SerialNumber]⟩ ∧
    (scrapeRows testData klLightBrightnessPercent)[0]? =
      some ⟨klLightBrightnessPercent, testData.Lights[0].Brightness,
        [lightLabel 0, testData.Device.SerialNumber]⟩ ∧
    (scrapeRows testData klLightTemperatureKelvin)[0]? =
      some ⟨klLightTemperatureKelvin, testData.Lights[0].Temperature,
        [lightLabel 0, testData.Device.SerialNumber]⟩ ∧
    boolFloat true = 1 ∧ boolFloat false = 0 :=
  scrape_per_light_content testData 0 (by decide)

/-- C10: invoked for a gauge name outside the four declared ones, the
translator aborts the scrape pass with a panic (modelled as the error
carrying the panic message) instead of silently ignoring the name; over
any list of declared names the pass completes without taking the failure
branch. -/
theorem scrape_unknown_gauge_fails_loudly :
    (∀ (d : Data) (name : GoStr), name ∉ declaredNames →
      scrapeName d name = .error (unhandledMetricMsg name)) ∧
    (∀ (d : Data) (names : List GoStr), (∀ n ∈ names, n ∈ declaredNames) →
      ∃ obs, scrapeDevice d names = .ok obs) := by
  constructor
  · intro d name hname
    simp only [declaredNames, List.mem_cons, List.not_mem_nil, or_false, not_or] at hname
    obtain ⟨h1, h2, h3, h4⟩ := hname
    rw [scrapeName, if_neg h1, if_neg (by simp [h2, h3, h4])]
  · intro d names h
    exact ⟨_, scrapeDevice_eq_flatMap d names h⟩

/-- C10 witness: the name bogus panics with the unhandled-metric message,
and the declared names scrape the test snapshot successfully. -/
theorem scrape_unknown_gauge_fails_loudly_witness :
    scrapeName testData (asciiStr "bogus") = .error (unhandledMetricMsg (asciiStr "bogus")) ∧
    ∃ obs, scrapeDevice testData declaredNames = .ok obs :=
  ⟨scrape_unknown_gauge_fails_loudly.1 testData (asciiStr "bogus") (by decide),
   scrape_unknown_gauge_fails_loudly.2 testData declaredNames (fun _ hn => hn)⟩

theorem scrapeObsOk_eq (d : Data) : scrapeObsOk d = declaredNames.flatMap (scrapeRows d) := by
  rw [scrapeObsOk, scrapeDevice_eq_flatMap d declaredNames (fun _ hn => hn)]

theorem scrapeObsOk_serial (d : Data) :
    ∀ o ∈ scrapeObsOk d, o.labels.getLast? = some d.Device.SerialNumber := by
  rw [scrapeObsOk_eq]
  intro o ho
  rw [List.mem_flatMap] at ho
  obtain ⟨n, hn, ho⟩ := ho
  exact (scrapeRows_spec d n hn o ho).2


theorem sys_invariant (dev : Bool → Data) (s0 : Sys) (hs : Reachable dev s0) :
    (∀ t : Bool, s0.owner = some t ↔
      (s0.pc t = .locked ∨ s0.pc t = .scraped ∨ s0.pc t = .rendered)) ∧
    (∀ t : Bool, s0.pc t = .scraped → s0.registry = scrapeObsOk (dev t)) ∧
    (∀ (t : Bool) (l : List Obs), s0.out t = some l → l = scrapeObsOk (dev t)) := by
  induction hs with
  | init =>
    refine ⟨fun t => ?_, fun t h => ?_, fun t l h => ?_⟩
    · simp [sysInit]
    · simp [sysInit] at h
    · simp [sysInit] at h
  | @step s s2 hr hstep ih =>
    obtain ⟨iha, ihb, ihc⟩ := ih
    cases hstep with
    | fetchStart t h1 =>
      refine ⟨fun t2 => ?_, fun t2 h => ?_, ihc⟩
      · show s.owner = some t2 ↔ _
        by_cases ht : t2 = t
        · subst ht
          simp only [setTh, if_pos rfl]
          rw [iha t2, h1]
          simp
        · simpa only [setTh, if_neg ht] using iha t2
      · by_cases ht : t2 = t
        · subst ht; simp [setTh] at h
        · simp only [setTh, if_neg ht] at h; exact ihb t2 h
    | fetchOk t h1 =>
      refine ⟨fun t2 => ?_, fun t2 h => ?_, ihc⟩
      · show s.owner = some t2 ↔ _
        by_cases ht : t2 = t
        · subst ht
          simp only [setTh, if_pos rfl]
          rw [iha t2, h1]
          simp
        · simpa only [setTh, if_neg ht] using iha t2
      · by_cases ht : t2 = t
        · subst ht; simp [setTh] at h
        · simp only [setTh, if_neg ht] at h; exact ihb t2 h
    | fetchFail t h1 =>
      refine ⟨fun t2 => ?_, fun t2 h => ?_, ihc⟩
      · show s.owner = some t2 ↔ _
        by_cases ht : t2 = t
        · subst ht
          simp only [setTh, if_pos rfl]
          rw [iha t2, h1]
          simp
        · simpa only [setTh, if_neg ht] using iha t2
      · by_cases ht : t2 = t
        · subst ht; simp [setTh] at h
        · simp only [setTh, if_neg ht] at h; exact ihb t2 h
    | lock t h1 h2 =>
      refine ⟨fun t2 => ?_, fun t2 h => ?_, ihc⟩
      · by_cases ht : t2 = t
        · subst ht; simp [setTh]
        · show some t = some t2 ↔ _
          simp only [setTh, if_neg ht, Option.some.injEq]
          constructor
          · intro he; exact absurd he.symm ht
          · intro hl
            have := (iha t2).mpr hl
            rw [h2] at this
            exact absurd this (by simp)
      · by_cases ht : t2 = t
        · subst ht; simp [setTh] at h
        · simp only [setTh, if_neg ht] at h; exact ihb t2 h
    | scrape t h1 h2 =>
      refine ⟨fun t2 => ?_, fun t2 h => ?_, ihc⟩
      · show s.owner = some t2 ↔ _
        by_cases ht : t2 = t
        · subst ht
          simp only [setTh, if_pos rfl]
          rw [h2]
          simp
        · simpa only [setTh, if_neg ht] using iha t2
      · by_cases ht : t2 = t
        · subst ht; rfl
        · simp only [setTh, if_neg ht] at h
          have := (iha t2).mpr (Or.inr (Or.inl h))
          rw [h2] at this
          injection this with he
          exact absurd he.symm ht
    | render t h1 h2 =>
      refine ⟨fun t2 => ?_, fun t2 h => ?_, fun t2 l h => ?_⟩
      · show s.owner = some t2 ↔ _
        by_cases ht : t2 = t
        · subst ht
          simp only [setTh, if_pos rfl]
          rw [h2]
          simp
        · simpa only [setTh, if_neg ht] using iha t2
      · by_cases ht : t2 = t
        · subst ht; simp [setTh] at h
        · simp only [setTh, if_neg ht] at h; exact ihb t2 h
      · by_cases ht : t2 = t
        · subst ht
          simp [setTh] at h
          rw [← h]
          exact ihb t2 h1
        · simp only [setTh, if_neg ht] at h
          exact ihc t2 l h
    | unlock t h1 h2 =>
      refine ⟨fun t2 => ?_, fun t2 h => ?_, ihc⟩
      · show (none : Option Bool) = some t2 ↔ _
        by_cases ht : t2 = t
        · subst ht; simp [setTh]
        · simp only [setTh, if_neg ht]
          constructor
          · intro he; exact absurd he (by simp)
          · intro hl
            have := (iha t2).mpr hl
            rw [h2] at this
            injection this with he
            exact absurd he.symm ht
      · by_cases ht : t2 = t
        · subst ht; simp [setTh] at h
        · simp only [setTh, if_neg ht] at h; exact ihb t2 h

/-- C8: in every reachable interleaving of two concurrent scrape requests,
a body rendered by one request consists exactly of the observations of
that request's own device, so its serial labels are internally consistent
and never mix the two devices' gauge values. -/
theorem scrape_render_isolation (dev : Bool → Data) (s : Sys) (hs : Reachable dev s)
    (t : Bool) (l : List Obs) (hout : s.out t = some l) :
    l = scrapeObsOk (dev t) ∧
    ∀ o ∈ l, o.labels.getLast? = some ((dev t).Device.SerialNumber) := by
  have h := sys_invariant dev s hs
  have hl := h.2.2 t l hout
  subst hl
  exact ⟨rfl, scrapeObsOk_serial (dev t)⟩

/-- C8 witness: running request false to completion of its render step
produces a body equal to its own device's observations, all carrying that
device's serial number. -/
theorem scrape_render_isolation_witness :
    ∃ (s : Sys) (l : List Obs), Reachable devW s ∧ s.out false = some l ∧
      l = scrapeObsOk (devW false) ∧
      ∀ o ∈ l, o.labels.getLast? = some ((devW false).Device.SerialNumber) := by
  have h0 : Reachable devW sysInit := .init
  have h1 := h0.step (Step.fetchStart _ false rfl)
  have h2 := h1.step (Step.fetchOk _ false rfl)
  have h3 := h2.step (Step.lock _ false rfl rfl)
  have h4 := h3.step (Step.scrape _ false rfl rfl)
  have h5 := h4.step (Step.render _ false rfl rfl)
  exact ⟨_, _, h5, rfl, scrape_render_isolation devW _ h5 false (scrapeObsOk (devW false)) rfl⟩

/-- C9: in every reachable state, the mutex is never held by a request
whose fetch call is outstanding, and a request holds the mutex exactly
during the locked, scraped and rendered phases, that is from after its
successful fetch through the end of writing the response body. -/
theorem lock_discipline (dev : Bool → Data) (s : Sys) (hs : Reachable dev s) (t : Bool) :
    (s.pc t = .inFetch → s.owner ≠ some t) ∧
    (s.owner = some t ↔ (s.pc t = .locked ∨ s.pc t = .scraped ∨ s.pc t = .rendered)) := by
  have h := sys_invariant dev s hs
  refine ⟨?_, h.1 t⟩
  intro hf ho
  have hl := (h.1 t).mp ho
  rw [hf] at hl
  rcases hl with h2 | h2 | h2 <;> exact absurd h2 (by decide)

/-- C9 witness: in the state where request false has just acquired the
mutex, the lock discipline holds concretely. -/
theorem lock_discipline_witness :
    ∃ s : Sys, Reachable devW s ∧ (s.pc false = .inFetch → s.owner ≠ some false) ∧
      (s.owner = some false ↔
        (s.pc false = .locked ∨ s.pc false = .scraped ∨ s.pc false = .rendered)) := by
  have h0 : Reachable devW sysInit := .init
  have h1 := h0.step (Step.fetchStart _ false rfl)
  have h2 := h1.step (Step.fetchOk _ false rfl)
  have h3 := h2.step (Step.lock _ false rfl rfl)
  exact ⟨_, h3, (lock_discipline devW _ h3 false).1, (lock_discipline devW _ h3 false).2⟩


theorem splitByteCut_no (c : Nat) (l : GoStr) (h : ∀ b ∈ l, b ≠ c) :
    splitByteCut c l = (l, []) := by
  induction l with
  | nil => rfl
  | cons b t ih =>
    rw [splitByteCut, if_neg (h b (by simp)), ih (fun x hx => h x (by simp [hx]))]

theorem splitByteNoCut_no (c : Nat) (l : GoStr) (h : ∀ b ∈ l, b ≠ c) :
    splitByteNoCut c l = (l, []) := by
  induction l with
  | nil => rfl
  | cons b t ih =>
    rw [splitByteNoCut, if_neg (h b (by simp)), ih (fun x hx => h x (by simp [hx]))]

theorem splitLastByte_no (c : Nat) (l : GoStr) (h : ∀ b ∈ l, b ≠ c) :
    splitLastByte c l = none := by
  induction l with
  | nil => rfl
  | cons b t ih =>
    rw [splitLastByte, ih (fun x hx => h x (by simp [hx])), if_neg (h b (by simp))]

theorem splitLastByte_none (c : Nat) :
    ∀ l : GoStr, splitLastByte c l = none → ∀ b ∈ l, b ≠ c := by
  intro l
  induction l with
  | nil => intro _ b hb; simp at hb
  | cons b t ih =>
    intro h x hx
    rw [splitLastByte] at h
    cases hr : splitLastByte c t with
    | some q => rw [hr] at h; simp at h
    | none =>
      rw [hr] at h
      by_cases hb : b = c
      · rw [if_pos hb] at h; simp at h
      · rcases List.mem_cons.mp hx with hx2 | hx2
        · subst hx2; exact hb
        · exact ih hr x hx2

theorem splitLastByte_eq (c : Nat) :
    ∀ l p1 p2 : GoStr, splitLastByte c l = some (p1, p2) →
      l = p1 ++ c :: p2 ∧ ∀ b ∈ p2, b ≠ c := by
  intro l
  induction l with
  | nil => intro p1 p2 h; simp [splitLastByte] at h
  | cons b t ih =>
    intro p1 p2 h
    rw [splitLastByte] at h
    cases hr : splitLastByte c t with
    | some q =>
      obtain ⟨q1, q2⟩ := q
      rw [hr] at h
      simp only [Option.some.injEq, Prod.mk.injEq] at h
      obtain ⟨h1, h2⟩ := h
      subst h1; subst h2
      obtain ⟨ht, hnc⟩ := ih q1 q2 hr
      exact ⟨by rw [List.cons_append, ← ht], hnc⟩
    | none =>
      rw [hr] at h
      by_cases hb : b = c
      · rw [if_pos hb] at h
        simp only [Option.some.injEq, Prod.mk.injEq] at h
        obtain ⟨h1, h2⟩ := h
        subst h1; subst h2; subst hb
        exact ⟨rfl, splitLastByte_none b t hr⟩
      · rw [if_neg hb] at h
        simp at h

theorem splitFirstByte_no (c : Nat) (l : GoStr) (h : ∀ b ∈ l, b ≠ c) :
    splitFirstByte c l = none := by
  induction l with
  | nil => rfl
  | cons b t ih =>
    rw [splitFirstByte, if_neg (h b (by simp)), ih (fun x hx => h x (by simp [hx]))]
    rfl

theorem splitFirstByte_eq (c : Nat) :
    ∀ l p1 p2 : GoStr, splitFirstByte c l = some (p1, p2) →
      l = p1 ++ c :: p2 ∧ ∀ b ∈ p1, b ≠ c := by
  intro l
  induction l with
  | nil => intro p1 p2 h; simp [splitFirstByte] at h
  | cons b t ih =>
    intro p1 p2 h
    rw [splitFirstByte] at h
    by_cases hb : b = c
    · rw [if_pos hb] at h
      simp only [Option.some.injEq, Prod.mk.injEq] at h
      obtain ⟨h1, h2⟩ := h
      subst h1; subst h2; subst hb
      exact ⟨rfl, by simp⟩
    · rw [if_neg hb] at h
      cases hr : splitFirstByte c t with
      | none => rw [hr] at h; simp at h
      | some q =>
        obtain ⟨q1, q2⟩ := q
        rw [hr] at h
        simp only [Option.map_some', Option.some.injEq, Prod.mk.injEq] at h
        obtain ⟨h1, h2⟩ := h
        subst h1; subst h2
        obtain ⟨ht, hnc⟩ := ih q1 q2 hr
        refine ⟨by rw [List.cons_append, ← ht], fun x hx => ?_⟩
        rcases List.mem_cons.mp hx with hx2 | hx2
        · subst hx2; exact hb
        · exact hnc x hx2

theorem hasSuffixByte_no (c : Nat) (l : GoStr) (h : ∀ b ∈ l, b ≠ c) :
    hasSuffixByte l c = false := by
  rw [hasSuffixByte]
  cases hl : l.getLast? with
  | none => simp
  | some a =>
    have ha : a ∈ l := List.mem_of_mem_getLast? (by rw [hl]; rfl)
    simp [h a ha]

theorem containsCTLByte_no (l : GoStr) (h : ∀ b ∈ l, isCTL b = false) :
    containsCTLByte l = false := by
  rw [containsCTLByte, List.any_eq_false]
  intro b hb
  simp [h b hb]

theorem host_raw_byte (b : Nat) (h : shouldEscape b .host = false) :
    33 ≤ b ∧ b ≤ 126 ∧ b ≠ 35 ∧ b ≠ 63 ∧ b ≠ 47 ∧ b ≠ 64 ∧ b ≠ 37 := by
  rw [shouldEscape] at h
  split_ifs at h with h1 h2 h3 h4
  · omega
  · obtain ⟨-, h2⟩ := h2
    simp only [List.mem_cons, List.not_mem_nil, or_false] at h2
    omega
  · simp only [List.mem_cons, List.not_mem_nil, or_false] at h3
    omega

theorem upperhex_lt (n : Nat) (h : n < 16) :
    (48 ≤ upperhex n ∧ upperhex n ≤ 57) ∨ (65 ≤ upperhex n ∧ upperhex n ≤ 70) := by
  rw [upperhex]; split <;> omega

theorem ishex_upperhex (n : Nat) (h : n < 16) : ishex (upperhex n) = true := by
  rw [ishex, upperhex]
  split <;> simp <;> omega

theorem unhex_upperhex (n : Nat) (h : n < 16) : unhex (upperhex n) = n := by
  rw [unhex, upperhex]
  split
  · rw [if_pos (by omega)]; omega
  · rw [if_neg (by omega), if_neg (by omega), if_pos (by omega)]; omega

theorem shouldEscape_zone_eq_host (b : Nat) : shouldEscape b .zone = shouldEscape b .host := by
  rw [shouldEscape, shouldEscape]
  by_cases h1 : (97 ≤ b ∧ b ≤ 122) ∨ (65 ≤ b ∧ b ≤ 90) ∨ (48 ≤ b ∧ b ≤ 57)
  · rw [if_pos h1, if_pos h1]
  · rw [if_neg h1, if_neg h1]
    by_cases h2 :
        b ∈ ([33, 36, 38, 39, 40, 41, 42, 43, 44, 59, 61, 58, 91, 93, 60, 62, 34] : List Nat)
    · rw [if_pos (⟨Or.inr rfl, h2⟩ : (Mode.zone = Mode.host ∨ Mode.zone = Mode.zone) ∧ _),
        if_pos (⟨Or.inl rfl, h2⟩ : (Mode.host = Mode.host ∨ Mode.host = Mode.zone) ∧ _)]
    · have hz : ¬((Mode.zone = Mode.host ∨ Mode.zone = Mode.zone) ∧
          b ∈ ([33, 36, 38, 39, 40, 41, 42, 43, 44, 59, 61, 58, 91, 93, 60, 62, 34] : List Nat)) :=
        fun hc => h2 hc.2
      have hh : ¬((Mode.host = Mode.host ∨ Mode.host = Mode.zone) ∧
          b ∈ ([33, 36, 38, 39, 40, 41, 42, 43, 44, 59, 61, 58, 91, 93, 60, 62, 34] : List Nat)) :=
        fun hc => h2 hc.2
      rw [if_neg hz, if_neg hh]

theorem goEscape_host_byte (J : GoStr) :
    ∀ c ∈ goEscape .host J, 33 ≤ c ∧ c ≤ 126 ∧ c ≠ 35 ∧ c ≠ 63 ∧ c ≠ 47 ∧ c ≠ 64 := by
  intro c hc
  rw [goEscape, List.mem_flatMap] at hc
  obtain ⟨a, -, hc⟩ := hc
  rw [escapeByte] at hc
  by_cases he : shouldEscape a .host = true
  · rw [if_pos he] at hc
    simp only [List.mem_cons, List.not_mem_nil, or_false] at hc
    have hx := upperhex_lt ((a / 16) % 16) (Nat.mod_lt _ (by omega))
    have hy := upperhex_lt (a % 16) (Nat.mod_lt _ (by omega))
    rcases hc with hc | hc | hc <;> omega
  · rw [if_neg he] at hc
    simp only [List.mem_cons, List.not_mem_nil, or_false] at hc
    subst hc
    have := host_raw_byte c (by simpa using he)
    omega

theorem escapeByte_eq_raw (b : Nat) (h : shouldEscape b .host = false) :
    escapeByte .host b = [b] := by
  rw [escapeByte, if_neg (by simp [h])]

theorem escapeByte_eq_esc (b : Nat) (h : shouldEscape b .host = true) :
    escapeByte .host b = [37, upperhex ((b / 16) % 16), upperhex (b % 16)] := by
  rw [escapeByte, if_pos h]

theorem escapeByte_37 : escapeByte .host 37 = [37, 50, 53] := by decide

theorem unescape_cons_raw (mode : Mode) (c : Nat) (rest : GoStr) (h37 : ¬c = 37)
    (herr : ¬((mode = .host ∨ mode = .zone) ∧ c < 128 ∧ shouldEscape c mode = true)) :
    unescape mode (c :: rest) = (unescape mode rest).map (c :: ·) := by
  match rest with
  | [] =>
    conv_lhs => rw [unescape]
    rw [if_neg h37, if_neg herr]
  | [x] =>
    conv_lhs => rw [unescape]
    rw [if_neg h37, if_neg herr]
  | x :: y :: t =>
    conv_lhs => rw [unescape]
    rw [if_neg h37, if_neg herr]

/-- Unescaping a host-escaped string in host or zone mode either fails or
returns the original bytes. -/
theorem unescape_goEscape (mode : Mode) (hm : mode = .host ∨ mode = .zone) (J : GoStr)
    (hB : ByteOk J) :
    unescape mode (goEscape .host J) = .ok J ∨
      ∃ e, unescape mode (goEscape .host J) = .error e := by
  induction J with
  | nil => left; rfl
  | cons b J2 ih =>
    have hb : b < 256 := hB b (by simp)
    have ihr := ih (fun x hx => hB x (by simp [hx]))
    rw [goEscape] at ihr
    have hmodeEq : shouldEscape b mode = shouldEscape b .host := by
      rcases hm with h | h <;> rw [h]
      exact shouldEscape_zone_eq_host b
    rw [goEscape, List.flatMap_cons]
    by_cases he : shouldEscape b .host = true
    · rw [escapeByte_eq_esc b he]
      have hdiv : (b / 16) % 16 = b / 16 := Nat.mod_eq_of_lt (by omega)
      have hx16 : (b / 16) % 16 < 16 := Nat.mod_lt _ (by omega)
      have hy16 : b % 16 < 16 := Nat.mod_lt _ (by omega)
      rw [List.cons_append, List.cons_append, List.cons_append, List.nil_append]
      rw [unescape]
      rw [if_pos rfl]
      rw [if_pos ⟨ishex_upperhex _ hx16, ishex_upperhex _ hy16⟩]
      rw [unhex_upperhex _ hx16, unhex_upperhex _ hy16, hdiv]
      have hv : b / 16 * 16 + b % 16 = b := by omega
      rw [hv]
      by_cases h2553 : upperhex (b / 16) = 50 ∧ upperhex (b % 16) = 53
      · have hb37 : b = 37 := by
          obtain ⟨ha, hb2⟩ := h2553
          have h1 : b / 16 = 2 := by
            have hu := unhex_upperhex (b / 16) (by omega)
            rw [ha] at hu
            simpa [unhex] using hu.symm
          have h2 : b % 16 = 5 := by
            have hu := unhex_upperhex (b % 16) hy16
            rw [hb2] at hu
            simpa [unhex] using hu.symm
          omega
        rw [if_neg (by simp [h2553]), if_neg (by simp [h2553])]
        rcases ihr with hok | ⟨e, herr⟩
        · left; rw [hok]; rfl
        · right; exact ⟨e, by rw [herr]; rfl⟩
      · by_cases hmode : mode = Mode.host
        · by_cases hlt : b / 16 < 8
          · exact Or.inr ⟨escapeErrMsg [37, upperhex (b / 16), upperhex (b % 16)],
              by rw [if_pos ⟨hmode, hlt, h2553⟩]⟩
          · rw [if_neg (fun hc => hlt hc.2.1)]
            rw [if_neg (fun hc => by rw [hmode] at hc; exact absurd hc.1 (by decide))]
            rcases ihr with hok | ⟨e, herr⟩
            · left; rw [hok]; rfl
            · right; exact ⟨e, by rw [herr]; rfl⟩
        · have hzone : mode = Mode.zone := by
            rcases hm with h | h
            · exact absurd h hmode
            · exact h
          rw [if_neg (fun hc => hmode hc.1)]
          by_cases hb32 : b = 32
          · rw [if_neg (by simp [hb32])]
            rcases ihr with hok | ⟨e, herr⟩
            · left; rw [hok]; rfl
            · right; exact ⟨e, by rw [herr]; rfl⟩
          · exact Or.inr ⟨escapeErrMsg [37, upperhex (b / 16), upperhex (b % 16)],
              by rw [if_pos ⟨hzone, h2553, hb32, he⟩]⟩
    · have heF : shouldEscape b .host = false := by simpa using he
      rw [escapeByte_eq_raw b heF]
      have hbr := host_raw_byte b heF
      rw [List.cons_append, List.nil_append]
      rw [unescape_cons_raw mode b _ (by omega) (fun hc => by
        rw [hmodeEq, heF] at hc
        exact absurd hc.2.2 (by simp))]
      rcases ihr with hok | ⟨e, herr⟩
      · left; rw [hok]; rfl
      · right; exact ⟨e, by rw [herr]; rfl⟩

theorem goEscape_append (m : Mode) (a b : GoStr) :
    goEscape m (a ++ b) = goEscape m a ++ goEscape m b := by
  rw [goEscape, goEscape, goEscape, List.flatMap_append]

theorem upperhex_pair_ne_2553 (b : Nat) (hb : b < 256) (h37 : b ≠ 37) :
    ¬(upperhex ((b / 16) % 16) = 50 ∧ upperhex (b % 16) = 53) := by
  intro ⟨ha, hb2⟩
  have hx16 : (b / 16) % 16 < 16 := Nat.mod_lt _ (by omega)
  have hy16 : b % 16 < 16 := Nat.mod_lt _ (by omega)
  have h1 : (b / 16) % 16 = 2 := by
    have hu := unhex_upperhex ((b / 16) % 16) hx16
    rw [ha] at hu
    simpa [unhex] using hu.symm
  have h2 : b % 16 = 5 := by
    have hu := unhex_upperhex (b % 16) hy16
    rw [hb2] at hu
    simpa [unhex] using hu.symm
  have hdiv : (b / 16) % 16 = b / 16 := Nat.mod_eq_of_lt (by omega)
  omega

theorem shouldEscape_37 : shouldEscape 37 .host = true := by decide

/-- Splitting a host-escaped string at the last occurrence of a byte that
is kept raw by the host escaping and is neither a percent sign nor a hex
digit commutes with the escaping. -/
theorem splitLast_goEscape (c : Nat) (hraw : shouldEscape c .host = false)
    (hhex : ¬((48 ≤ c ∧ c ≤ 57) ∨ (65 ≤ c ∧ c ≤ 70))) (J : GoStr) (hB : ByteOk J) :
    splitLastByte c (goEscape .host J) =
      (splitLastByte c J).map fun p => (goEscape .host p.1, goEscape .host p.2) := by
  have hc37 : c ≠ 37 := (host_raw_byte c hraw).2.2.2.2.2.2
  induction J with
  | nil => rfl
  | cons b J2 ih =>
    have hb : b < 256 := hB b (by simp)
    have ihr := ih (fun x hx => hB x (by simp [hx]))
    rw [goEscape, List.flatMap_cons]
    by_cases he : shouldEscape b .host = true
    · have hbc : b ≠ c := fun hbc => by rw [hbc, hraw] at he; exact absurd he (by simp)
      rw [escapeByte_eq_esc b he]
      have hx16 : (b / 16) % 16 < 16 := Nat.mod_lt _ (by omega)
      have hy16 : b % 16 < 16 := Nat.mod_lt _ (by omega)
      have hxc : upperhex ((b / 16) % 16) ≠ c := by
        rcases upperhex_lt _ hx16 with h | h <;> omega
      have hyc : upperhex (b % 16) ≠ c := by
        rcases upperhex_lt _ hy16 with h | h <;> omega
      rw [List.cons_append, List.cons_append, List.cons_append, List.nil_append]
      rw [splitLastByte, splitLastByte, splitLastByte]
      rw [← goEscape, ihr]
      cases hq : splitLastByte c J2 with
      | some q =>
        obtain ⟨q1, q2⟩ := q
        rw [splitLastByte, hq]
        simp [goEscape, List.flatMap_cons, escapeByte_eq_esc b he]
      | none =>
        rw [splitLastByte, hq]
        rw [if_neg hbc]
        simp [Ne.symm hc37, hxc, hyc]
    · have heF : shouldEscape b .host = false := by simpa using he
      rw [escapeByte_eq_raw b heF]
      rw [List.cons_append, List.nil_append]
      rw [splitLastByte, ← goEscape, ihr]
      cases hq : splitLastByte c J2 with
      | some q =>
        obtain ⟨q1, q2⟩ := q
        rw [splitLastByte, hq]
        simp [goEscape, List.flatMap_cons, escapeByte_eq_raw b heF]
      | none =>
        rw [splitLastByte, hq]
        by_cases hbc : b = c
        · rw [if_pos hbc, if_pos hbc]
          simp [goEscape]
        · rw [if_neg hbc, if_neg hbc]
          rfl

/-- Finding the first percent-25 triple in a host-escaped string is
finding the first percent sign in the original: every percent sign is
escaped as the triple and no triple arises any other way. -/
theorem splitFirst25_goEscape (J : GoStr) (hB : ByteOk J) :
    splitFirstSub25 (goEscape .host J) =
      (splitFirstByte 37 J).map fun p => (goEscape .host p.1, goEscape .host p.2) := by
  induction J with
  | nil => rfl
  | cons b J2 ih =>
    have hb : b < 256 := hB b (by simp)
    have ihr := ih (fun x hx => hB x (by simp [hx]))
    rw [goEscape, List.flatMap_cons]
    by_cases hb37 : b = 37
    · subst hb37
      rw [escapeByte_eq_esc 37 shouldEscape_37]
      rw [List.cons_append, List.cons_append, List.cons_append, List.nil_append]
      rw [splitFirstSub25]
      rw [if_pos (by constructor <;> rfl)]
      rw [splitFirstByte, if_pos rfl]
      simp [goEscape]
    · by_cases he : shouldEscape b .host = true
      · rw [escapeByte_eq_esc b he]
        have hne := upperhex_pair_ne_2553 b hb hb37
        have hx16 : (b / 16) % 16 < 16 := Nat.mod_lt _ (by omega)
        have hy16 : b % 16 < 16 := Nat.mod_lt _ (by omega)
        have hx37 : upperhex ((b / 16) % 16) ≠ 37 := by
          rcases upperhex_lt _ hx16 with h | h <;> omega
        have hy37 : upperhex (b % 16) ≠ 37 := by
          rcases upperhex_lt _ hy16 with h | h <;> omega
        rw [List.cons_append, List.cons_append, List.cons_append, List.nil_append]
        rw [splitFirstSub25]
        rw [if_neg (by
          intro hc
          exact hne ⟨by simpa using congrArg (fun l => l.headI) hc.2,
            by simpa using congrArg (fun l => l.tail.headI) hc.2⟩)]
        rw [splitFirstSub25, if_neg (by simp [hx37])]
        rw [splitFirstSub25, if_neg (by simp [hy37])]
        rw [← goEscape, ihr]
        rw [splitFirstByte, if_neg hb37]
        cases hq : splitFirstByte 37 J2 with
        | none => rfl
        | some q =>
          obtain ⟨q1, q2⟩ := q
          simp [goEscape, List.flatMap_cons, escapeByte_eq_esc b he]
      · have heF : shouldEscape b .host = false := by simpa using he
        rw [escapeByte_eq_raw b heF]
        rw [List.cons_append, List.nil_append]
        rw [splitFirstSub25, if_neg (by simp [hb37])]
        rw [← goEscape, ihr]
        rw [splitFirstByte, if_neg hb37]
        cases hq : splitFirstByte 37 J2 with
        | none => rfl
        | some q =>
          obtain ⟨q1, q2⟩ := q
          simp [goEscape, List.flatMap_cons, escapeByte_eq_raw b heF]

/-- parseHost on a host-escaped string either fails or returns exactly
the original bytes, through both the bracket-zone and the plain paths. -/
theorem parseHost_goEscape (J : GoStr) (hB : ByteOk J) :
    parseHost (goEscape .host J) = .ok J ∨ ∃ e, parseHost (goEscape .host J) = .error e := by
  rw [parseHost]
  by_cases hhead : (goEscape .host J).head? = some 91
  · rw [if_pos hhead]
    rw [splitLast_goEscape 93 (by decide) (by decide) J hB]
    cases hq : splitLastByte 93 J with
    | none =>
      simp only [Option.map_none']
      right; exact ⟨_, rfl⟩
    | some q =>
      obtain ⟨J1, J2⟩ := q
      simp only [Option.map_some']
      have hBJ : J = J1 ++ 93 :: J2 := (splitLastByte_eq 93 J J1 J2 hq).1
      have hB1 : ByteOk J1 := fun x hx => hB x (by rw [hBJ]; exact List.mem_append.mpr (Or.inl hx))
      have hB2 : ByteOk J2 := fun x hx => hB x (by rw [hBJ]; simp [hx])
      by_cases hport : validOptionalPort (goEscape .host J2) = true
      · rw [if_neg (by simp [hport])]
        rw [splitFirst25_goEscape J1 hB1]
        cases hz : splitFirstByte 37 J1 with
        | none =>
          simp only [Option.map_none']
          exact unescape_goEscape .host (Or.inl rfl) J hB
        | some z =>
          obtain ⟨A, B⟩ := z
          simp only [Option.map_some']
          have hA : J1 = A ++ 37 :: B := (splitFirstByte_eq 37 J1 A B hz).1
          have hBA : ByteOk A := fun x hx =>
            hB1 x (by rw [hA]; exact List.mem_append.mpr (Or.inl hx))
          have hB37B : ByteOk (37 :: B) := by
            intro x hx
            rcases List.mem_cons.mp hx with hx2 | hx2
            · omega
            · exact hB1 x (by rw [hA]; simp [hx2])
          have hB93 : ByteOk (93 :: J2) := by
            intro x hx
            rcases List.mem_cons.mp hx with hx2 | hx2
            · omega
            · exact hB2 x hx2
          have h2eq : ([37, 50, 53] ++ goEscape .host B : GoStr) = goEscape .host (37 :: B) := by
            conv_rhs => rw [goEscape, List.flatMap_cons, ← goEscape, escapeByte_37]
          have h3eq : (93 :: goEscape .host J2 : GoStr) = goEscape .host (93 :: J2) := by
            conv_rhs => rw [goEscape, List.flatMap_cons, ← goEscape, escapeByte_eq_raw 93 (by decide)]
            rfl
          rw [h2eq, h3eq]
          rcases unescape_goEscape .host (Or.inl rfl) A hBA with hA1 | ⟨e, hA1⟩
          · rw [hA1]
            rcases unescape_goEscape .zone (Or.inr rfl) (37 :: B) hB37B with hb1 | ⟨e, hb1⟩
            · rw [hb1]
              rcases unescape_goEscape .host (Or.inl rfl) (93 :: J2) hB93 with hc1 | ⟨e, hc1⟩
              · rw [hc1]
                left
                rw [hBJ, hA]
              · rw [hc1]; right; exact ⟨e, rfl⟩
            · rw [hb1]; right; exact ⟨e, rfl⟩
          · rw [hA1]; right; exact ⟨e, rfl⟩
      · rw [if_pos (by simp [hport])]
        right; exact ⟨_, rfl⟩
  · rw [if_neg hhead]
    rw [splitLast_goEscape 58 (by decide) (by decide) J hB]
    cases hq : splitLastByte 58 J with
    | none =>
      simp only [Option.map_none']
      exact unescape_goEscape .host (Or.inl rfl) J hB
    | some q =>
      obtain ⟨q1, q2⟩ := q
      simp only [Option.map_some']
      by_cases hport : validOptionalPort (58 :: goEscape .host q2) = true
      · rw [if_neg (by simp [hport])]
        exact unescape_goEscape .host (Or.inl rfl) J hB
      · rw [if_pos (by simp [hport])]
        right; exact ⟨_, rfl⟩

theorem getscheme_http (r : GoStr) :
    getscheme (104 :: 116 :: 116 :: 112 :: 58 :: r) = .ok ([104, 116, 116, 112], r) := by
  simp [getscheme, getschemeAux]

/-- url.Parse on a string of the form http colon-slash-slash plus an
escaped host reduces to parseHost on the escaped host. -/
theorem urlParse_http_host (J : GoStr) :
    urlParse (asciiStr "http://" ++ goEscape .host J) =
      match parseHost (goEscape .host J) with
      | .ok h => .ok { Scheme := asciiStr "http", Host := h }
      | .error e => .error (urlErrWrap (asciiStr "http://" ++ goEscape .host J) e) := by
  have hchars := goEscape_host_byte J
  have he7 : asciiStr "http://" = [104, 116, 116, 112, 58, 47, 47] := by decide
  rw [he7]
  simp only [List.cons_append, List.nil_append]
  have hmem : ∀ b ∈ (104 :: 116 :: 116 :: 112 :: 58 :: 47 :: 47 :: goEscape .host J : GoStr),
      33 ≤ b ∧ b ≤ 126 ∧ b ≠ 35 ∧ b ≠ 63 := by
    intro b hb
    simp only [List.mem_cons] at hb
    rcases hb with h | h | h | h | h | h | h | h
    · omega
    · omega
    · omega
    · omega
    · omega
    · omega
    · omega
    · have := hchars b h
      omega
  rw [urlParse]
  rw [splitByteCut_no 35 _ (fun b hb => (hmem b hb).2.2.1)]
  simp only [urlParseCore]
  rw [if_neg (by
    rw [containsCTLByte_no _ (fun b hb => by
      have := (hmem b hb).1
      have h2 := (hmem b hb).2.1
      simp [isCTL]
      omega)]
    simp)]
  rw [if_neg (by simp)]
  rw [getscheme_http]
  simp only []
  have hlower : toLowerAscii [104, 116, 116, 112] = asciiStr "http" := by decide
  have hrest1mem : ∀ b ∈ (47 :: 47 :: goEscape .host J : GoStr), b ≠ 63 := by
    intro b hb
    simp only [List.mem_cons] at hb
    rcases hb with h | h | h
    · omega
    · omega
    · exact (hchars b h).2.2.2.1
  rw [hasSuffixByte_no 63 _ hrest1mem]
  rw [splitByteCut_no 63 _ hrest1mem]
  simp only [Bool.false_eq_true, false_and, if_false]
  have hpre1 : goHasPrefix (47 :: 47 :: goEscape .host J) [47] = true := by
    simp [goHasPrefix, List.isPrefixOf]
  have hpre2 : goHasPrefix (47 :: 47 :: goEscape .host J) [47, 47] = true := by
    simp [goHasPrefix, List.isPrefixOf]
  rw [if_neg (fun hc => by rw [hpre1] at hc; exact hc.1 rfl)]
  rw [if_neg (fun hc => by rw [hpre1] at hc; exact hc.1 rfl)]
  rw [if_pos ⟨Or.inl (by rw [hlower]; intro hc; exact absurd hc (by decide)), hpre2⟩]
  simp only [List.drop_succ_cons, List.drop_zero]
  rw [splitByteNoCut_no 47 _ (fun b hb => (hchars b hb).2.2.2.2.1)]
  rw [parseAuthority]
  rw [splitLastByte_no 64 _ (fun b hb => (hchars b hb).2.2.2.2.2)]
  cases hph : parseHost (goEscape .host J) with
  | ok h => rfl
  | error e => rfl

theorem urlString_http_host (J : GoStr) (hJ : J ≠ ([] : GoStr)) :
    urlString { Scheme := asciiStr "http", Host := J } =
      asciiStr "http://" ++ goEscape .host J := by
  have hsch : (asciiStr "http" : GoStr) ≠ [] := by decide
  have hsplit : (asciiStr "http://" : GoStr) = asciiStr "http" ++ [58] ++ [47, 47] := by decide
  rw [urlString]
  simp only [escapedPath]
  simp [hsch, hJ, goEscape, hsplit, List.append_assoc]

theorem joinHostPort_mem58 (h p : GoStr) : 58 ∈ joinHostPort h p := by
  rw [joinHostPort]
  split <;> simp

theorem joinHostPort_ne_nil (h p : GoStr) : joinHostPort h p ≠ ([] : GoStr) := by
  intro hc
  have := joinHostPort_mem58 h p
  rw [hc] at this
  simp at this

theorem joinHostPort_byteOk (h p : GoStr) (hh : ByteOk h) (hp : ByteOk p) :
    ByteOk (joinHostPort h p) := by
  intro b hb
  rw [joinHostPort] at hb
  split at hb
  · simp only [List.cons_append, List.mem_cons, List.mem_append] at hb
    rcases hb with hb | hb | hb | hb | hb
    · omega
    · exact hh b hb
    · omega
    · omega
    · exact hp b hb
  · rw [List.mem_append] at hb
    rcases hb with hb | hb
    · exact hh b hb
    rcases List.mem_cons.mp hb with hb2 | hb2
    · omega
    · exact hp b hb2

theorem splitHostPort_byteOk (s : GoStr) (hB : ByteOk s) (h1 p1 : GoStr)
    (h : splitHostPort s = .ok (h1, p1)) : ByteOk h1 ∧ ByteOk p1 := by
  rw [splitHostPort] at h
  cases hq : splitLastByte 58 s with
  | none => rw [hq] at h; simp at h
  | some q =>
    obtain ⟨pre, port⟩ := q
    rw [hq] at h
    simp only [] at h
    have hs := (splitLastByte_eq 58 s pre port hq).1
    have hpreB : ByteOk pre := fun x hx => hB x (by rw [hs]; exact List.mem_append.mpr (Or.inl hx))
    have hportB : ByteOk port := fun x hx => hB x (by rw [hs]; simp [hx])
    repeat' split at h
    all_goals
      first
        | exact Except.noConfusion h
        | (simp only [Except.ok.injEq, Prod.mk.injEq] at h
           obtain ⟨ha, hb⟩ := h
           subst ha
           subst hb
           first
             | exact ⟨fun x hx => hB x (List.mem_of_mem_drop (List.mem_of_mem_take hx)), hportB⟩
             | exact ⟨hpreB, hportB⟩)

theorem goContains_http_sep (r : GoStr) :
    goContains (asciiStr "http://" ++ r) schemeSep = true := by
  have he7 : asciiStr "http://" = [104, 116, 116, 112, 58, 47, 47] := by decide
  have hsep : (schemeSep : GoStr) = [58, 47, 47] := by decide
  rw [he7, hsep]
  simp [goContains, List.isPrefixOf]

theorem buildAddrScheme_http_host (J : GoStr) (hJ : J ≠ ([] : GoStr)) (hB : ByteOk J) :
    buildAddrScheme (asciiStr "http://" ++ goEscape .host J) =
        .ok (asciiStr "http://" ++ goEscape .host J) ∨
      ∃ e, buildAddrScheme (asciiStr "http://" ++ goEscape .host J) = .error e := by
  rcases parseHost_goEscape J hB with hok | ⟨e, herr⟩
  · left
    rw [buildAddrScheme, urlParse_http_host J, hok]
    simp only []
    rw [if_neg (show ¬(({ Scheme := asciiStr "http", Host := J } : URL).Path = ([47] : GoStr))
      from by simp)]
    rw [if_neg (by
      intro hc
      rcases hc with hc | hc | hc
      · exact hc.1 rfl
      · exact hJ hc
      · exact hc rfl)]
    rw [urlString_http_host J hJ]
  · right
    refine ⟨urlErrWrap (asciiStr "http://" ++ goEscape .host J) e, ?_⟩
    rw [buildAddrScheme, urlParse_http_host J, herr]

/-- C7: for every scheme-less byte-string target accepted by buildAddr,
normalizing the returned endpoint again returns that same endpoint. -/
theorem buildAddr_idempotent_schemeless (s out : GoStr) (hB : ByteOk s)
    (hsep : goContains s schemeSep = false) (h : buildAddr s = .ok out) :
    buildAddr out = .ok out := by
  rw [buildAddr, hsep] at h
  simp only [Bool.false_eq_true, if_false] at h
  rw [buildHostPort] at h
  cases hsp : splitHostPort s with
  | ok q =>
    obtain ⟨h1, p1⟩ := q
    rw [hsp] at h
    simp only [] at h
    obtain ⟨hBh, hBp⟩ := splitHostPort_byteOk s hB h1 p1 hsp
    have hJne := joinHostPort_ne_nil h1 p1
    have hJB := joinHostPort_byteOk h1 p1 hBh hBp
    rw [urlString_http_host _ hJne] at h
    rcases buildAddrScheme_http_host _ hJne hJB with hok | ⟨e, herr⟩
    · rw [h] at hok
      injection hok with hout
      subst hout
      rw [buildAddr, goContains_http_sep, if_pos rfl]
      exact h
    · rw [herr] at h
      simp at h
  | error e2 =>
    rw [hsp] at h
    simp only [] at h
    have hKB : ByteOk keylightPort := by decide
    have hJne := joinHostPort_ne_nil s keylightPort
    have hJB := joinHostPort_byteOk s keylightPort hB hKB
    rw [urlString_http_host _ hJne] at h
    rcases buildAddrScheme_http_host _ hJne hJB with hok | ⟨e, herr⟩
    · rw [h] at hok
      injection hok with hout
      subst hout
      rw [buildAddr, goContains_http_sep, if_pos rfl]
      exact h
    · rw [herr] at h
      simp at h

/-- Witness for C7: the scheme-less target "foo" is accepted, producing
"http://foo:9123", and the theorem applies to it at concrete inputs. -/
theorem buildAddr_idempotent_schemeless_witness :
    ByteOk (asciiStr "foo") ∧
      goContains (asciiStr "foo") schemeSep = false ∧
      buildAddr (asciiStr "foo") = .ok (asciiStr "http://foo:9123") ∧
      buildAddr (asciiStr "http://foo:9123") = .ok (asciiStr "http://foo:9123") :=
  ⟨by decide, by decide, by decide,
    buildAddr_idempotent_schemeless (asciiStr "foo") (asciiStr "http://foo:9123")
      (by decide) (by decide) (by decide)⟩

theorem goContains_of_infix (s sub : GoStr) (h : sub <:+: s) : goContains s sub = true := by
  induction s with
  | nil =>
    rw [List.infix_nil] at h
    subst h
    rfl
  | cons b t ih =>
    rw [List.infix_cons_iff] at h
    rw [goContains, Bool.or_eq_true]
    rcases h with h | h
    · exact Or.inl (List.isPrefixOf_iff_prefix.mpr h)
    · exact Or.inr (ih h)

/-- C2 (corrected): ServeHTTP terminates on the first applicable branch:
an absent (empty) target gives status 400 with the fixed message; a target
rejected by buildAddr gives status 400 with the rejection reason in the
body; a fetch failure gives status 500 with a body containing the resolved
endpoint in Go %q-quoted form (not necessarily verbatim) and the underlying
error text; otherwise status 200 with the rendered metrics body. -/
theorem serveHTTP_branches (fetch : GoStr → Except GoStr Data) (enc : List Obs → GoStr)
    (target : GoStr) :
    (target = ([] : GoStr) →
      serveHTTP fetch enc target =
        .ok ⟨400, httpErrorBody (asciiStr "missing target parameter")⟩) ∧
    (∀ e, target ≠ ([] : GoStr) → buildAddr target = .error e →
      ∃ body, serveHTTP fetch enc target = .ok ⟨400, body⟩ ∧ goContains body e = true) ∧
    (∀ addr e, target ≠ ([] : GoStr) → buildAddr target = .ok addr → fetch addr = .error e →
      ∃ body, serveHTTP fetch enc target = .ok ⟨500, body⟩ ∧
        goContains body (goQuote addr) = true ∧ goContains body e = true) ∧
    (∀ addr d, target ≠ ([] : GoStr) → buildAddr target = .ok addr → fetch addr = .ok d →
      serveHTTP fetch enc target = .ok ⟨200, enc (scrapeObsOk d)⟩) := by
  refine ⟨?_, ?_, ?_, ?_⟩
  · intro ht
    rw [serveHTTP, if_pos ht]
  · intro e ht hb
    refine ⟨httpErrorBody (asciiStr "malformed target parameter: " ++ e), ?_, ?_⟩
    · rw [serveHTTP, if_neg ht, hb]
    · exact goContains_of_infix _ _
        ⟨asciiStr "malformed target parameter: ", [10], by simp [httpErrorBody]⟩
  · intro addr e ht hb hf
    refine ⟨httpErrorBody (asciiStr "failed to fetch Key Light data from " ++
      goQuote addr ++ asciiStr ": " ++ e), ?_, ?_, ?_⟩
    · rw [serveHTTP, if_neg ht, hb]
      simp only []
      rw [hf]
    · exact goContains_of_infix _ _
        ⟨asciiStr "failed to fetch Key Light data from ",
          asciiStr ": " ++ e ++ [10], by simp [httpErrorBody]⟩
    · exact goContains_of_infix _ _
        ⟨asciiStr "failed to fetch Key Light data from " ++ goQuote addr ++ asciiStr ": ",
          [10], by simp [httpErrorBody]⟩
  · intro addr d ht hb hf
    rw [serveHTTP, if_neg ht, hb]
    simp only []
    rw [hf]
    simp only []
    rw [scrapeDevice_eq_flatMap d declaredNames (fun n hn => hn), ← scrapeObsOk_eq]

/-- Counterexample for C2 as frozen: for the target fo"o (a double quote is
a legal raw host byte in net/url), the resolved endpoint http://fo"o:9123
does not occur verbatim in the 500 body, because fmt %q renders its quote
as a backslash escape. -/
theorem serveHTTP_quoted_endpoint_counterexample :
    buildAddr (asciiStr "fo" ++ [34] ++ asciiStr "o") =
        .ok (asciiStr "http://fo" ++ [34] ++ asciiStr "o:9123") ∧
      serveHTTP (fun _ => .error (asciiStr "boom")) (fun _ => [])
          (asciiStr "fo" ++ [34] ++ asciiStr "o") =
        .ok ⟨500, httpErrorBody (asciiStr "failed to fetch Key Light data from " ++
          goQuote (asciiStr "http://fo" ++ [34] ++ asciiStr "o:9123") ++
          asciiStr ": " ++ asciiStr "boom")⟩ ∧
      goContains (httpErrorBody (asciiStr "failed to fetch Key Light data from " ++
          goQuote (asciiStr "http://fo" ++ [34] ++ asciiStr "o:9123") ++
          asciiStr ": " ++ asciiStr "boom"))
        (asciiStr "http://fo" ++ [34] ++ asciiStr "o:9123") = false := by
  decide

/-- Witness for C2: the 200 branch of serveHTTP_branches applied to the
test fixture target "foo" with an always-succeeding fetcher and a
length-reporting encoder. -/
theorem serveHTTP_branches_witness :
    serveHTTP (fun _ => .ok testData) (fun obs => natDecimal obs.length) (asciiStr "foo") =
      .ok ⟨200, asciiStr "7"⟩ := by
  have h := (serveHTTP_branches (fun _ => .ok testData) (fun obs => natDecimal obs.length)
    (asciiStr "foo")).2.2.2 (asciiStr "http://foo:9123") testData (by decide) (by decide) rfl
  rw [h]
  decide

theorem buildAddrScheme_ok_shape (t out : GoStr) (h : buildAddrScheme t = .ok out) :
    ∃ u : URL, out = urlString u ∧
      (u.Scheme = asciiStr "http" ∨ u.Scheme = asciiStr "https") ∧
      u.Host ≠ ([] : GoStr) ∧ u.Path = ([] : GoStr) := by
  rw [buildAddrScheme] at h
  cases hp : urlParse t with
  | error e =>
    rw [hp] at h
    exact absurd h (by simp)
  | ok u0 =>
    rw [hp] at h
    simp only [] at h
    generalize hU : (if u0.Path = ([47] : GoStr) then { u0 with Path := ([] : GoStr) }
      else u0) = u at h
    split at h
    · exact absurd h (by simp)
    · rename_i hg
      injection h with h
      push_neg at hg
      obtain ⟨hsch, hhost, hpath⟩ := hg
      refine ⟨u, h.symm, ?_, hhost, hpath⟩
      rcases eq_or_ne u.Scheme (asciiStr "http") with hs | hs
      · exact Or.inl hs
      · exact Or.inr (hsch hs)

/-- C1 (corrected): every endpoint accepted by buildAddr is the URL.String
rendering of a parsed URL whose scheme is http or https, whose host is
non-empty, and whose path is empty; query and fragment components are not
constrained and can pass through from a scheme-ful target. -/
theorem buildAddr_ok_shape (s out : GoStr) (h : buildAddr s = .ok out) :
    ∃ u : URL, out = urlString u ∧
      (u.Scheme = asciiStr "http" ∨ u.Scheme = asciiStr "https") ∧
      u.Host ≠ ([] : GoStr) ∧ u.Path = ([] : GoStr) := by
  rw [buildAddr] at h
  split at h
  · exact buildAddrScheme_ok_shape s out h
  · rw [buildHostPort] at h
    exact buildAddrScheme_ok_shape _ out h

/-- Counterexample for C1 as frozen: the target http://foo?x=1#y is
accepted by buildAddr unchanged, yet the returned endpoint carries the
query x=1 and the fragment y. -/
theorem buildAddr_query_fragment_counterexample :
    buildAddr (asciiStr "http://foo?x=1#y") = .ok (asciiStr "http://foo?x=1#y") ∧
      urlParse (asciiStr "http://foo?x=1#y") =
        .ok { Scheme := asciiStr "http", Host := asciiStr "foo",
              RawQuery := asciiStr "x=1", Fragment := asciiStr "y" } := by
  decide

/-- Witness for C1: buildAddr_ok_shape applied to the accepted concrete
target "foo", whose endpoint is "http://foo:9123". -/
theorem buildAddr_ok_shape_witness :
    ∃ u : URL, asciiStr "http://foo:9123" = urlString u ∧
      (u.Scheme = asciiStr "http" ∨ u.Scheme = asciiStr "https") ∧
      u.Host ≠ ([] : GoStr) ∧ u.Path = ([] : GoStr) :=
  buildAddr_ok_shape (asciiStr "foo") (asciiStr "http://foo:9123") (by decide)
